import Mathlib

/-!
Verification of the dungeon_creator generation pipeline.

Shallow embedding of the Rust sources:
  * `src/room/tile.rs`, `src/direction.rs` — value types
  * `src/room/room.rs` — `DungeonRoom` and its index/border helpers
  * `src/room/pathfinding.rs` — `connected_tile_sets` / `merge`
  * `src/room/drunkard.rs` — bounded random-walk room builder
  * `src/room/grid.rs` — grid room builder
  * `src/floor/floor_architecture.rs` — random floor layout
  * `src/dungeon/dungeon_architecture.rs` — multi-floor orchestration
  * `src/dungeon/dungeon_builder.rs` — exit/stair stamping

The pseudorandom source is modelled as a list of raw draws: each
`gen_range(lo..hi)` call consumes one entry `v` and yields `lo + v % (hi-lo)`,
so quantifying over all lists covers every realizable draw sequence.
Unbounded retry loops take explicit fuel and return `Option`; `none` covers
both fuel exhaustion and the panic paths of the original code.
-/

namespace DungeonCreator

/-- Embeds `DungeonTile` from `src/room/tile.rs`. -/
inductive DungeonTile where
  | floor
  | wall
  | exit
  | stairsUp
  | stairsDown
deriving DecidableEq, Repr

/-- Embeds `Direction3D` from `src/direction.rs`. -/
inductive Direction3D where
  | top
  | bottom
  | left
  | right
  | up
  | down
  | none
deriving DecidableEq, Repr

/-- Embeds `Direction3D::opposite`. -/
def Direction3D.opposite : Direction3D → Direction3D
  | .top => .bottom
  | .right => .left
  | .bottom => .top
  | .left => .right
  | .up => .down
  | .down => .up
  | .none => .none

/-- The pseudorandom stream: a list of raw draws. -/
abbrev Rng := List Nat

/-- One `rng.gen_range(lo..hi)` draw: consumes the head of the stream and
maps it into `[lo, hi)` (for `lo < hi`; the repository never draws from an
empty range on the paths under verification). -/
def genRange (lo hi : Nat) (rng : Rng) : Nat × Rng :=
  (lo + rng.headD 0 % (hi - lo), rng.tail)

/-- Embeds `DungeonRoom` from `src/room/room.rs`.  Rust stores `rows`/`columns` as
`i32` but only ever holds non-negative values in them, so they are `Nat`
here; tile indices are `Nat` throughout. -/
structure DungeonRoom where
  tiles : List DungeonTile
  exits : List Nat
  pathing : List Nat
  rows : Nat
  columns : Nat
  exitDirections : List Direction3D
  stairUp : Bool
  stairDown : Bool
deriving DecidableEq, Repr

/-- Embeds `DungeonRoom::default()`. -/
def DungeonRoom.default : DungeonRoom :=
  { tiles := [], exits := [], pathing := [], rows := 0, columns := 0
    exitDirections := [], stairUp := false, stairDown := false }

/-- Embeds `DungeonRoom::room_idx`. -/
def DungeonRoom.roomIdx (r : DungeonRoom) (row col : Nat) : Nat :=
  row * r.columns + col

/-- Embeds `DungeonRoom::col`. -/
def DungeonRoom.col (r : DungeonRoom) (idx : Nat) : Nat :=
  idx % r.columns

/-- Embeds `DungeonRoom::row`. -/
def DungeonRoom.row (r : DungeonRoom) (idx : Nat) : Nat :=
  idx / r.columns

/-- Embeds `DungeonRoom::in_bounds` (the Rust version takes `i32` coordinates). -/
def DungeonRoom.inBounds (r : DungeonRoom) (row col : Int) : Bool :=
  0 ≤ row && row < (r.rows : Int) && 0 ≤ col && col < (r.columns : Int)

/-- Embeds `DungeonRoom::is_corner`. -/
def DungeonRoom.isCorner (r : DungeonRoom) (row col : Nat) : Bool :=
  [(0, 0), (r.rows - 1, 0), (0, r.columns - 1), (r.rows - 1, r.columns - 1)].contains (row, col)

/-- Rust's `(start..stop).step_by(step)` as a list (`step > 0` at all call
sites; the `count` argument bounds recursion). -/
def stepRange (start stop step : Nat) : List Nat :=
  (List.range ((stop - start + step - 1) / step)).map (fun i => start + i * step)

/-- Embeds `DungeonRoom::side_indexes`.  Faithful to the source, including the
`Top` arm iterating `0..rows` (not `0..columns`). -/
def DungeonRoom.sideIndexes (r : DungeonRoom) (direction : Direction3D) : List Nat :=
  match direction with
  | .top => List.range r.rows
  | .bottom => (List.range r.columns).map (fun i => r.tiles.length - r.columns + i)
  | .left => stepRange 0 r.tiles.length r.columns
  | .right => stepRange (r.columns - 1) r.tiles.length r.columns
  | _ => []

/-! ## Connectivity analyzer (`src/room/pathfinding.rs`) -/

/-- Embeds `neighbor_floors`: the 4-adjacent non-Wall neighbours of `idx`, in the
source's order (up, left, right, down).  Out-of-range reads default to
`Wall`, matching the in-bounds behaviour of the original on well-formed
grids. -/
def neighborFloors (room : DungeonRoom) (idx : Nat) : List Nat :=
  let col := room.col idx
  let row := room.row idx
  (if 0 < row ∧ room.tiles.getD (idx - room.columns) .wall ≠ .wall
   then [idx - room.columns] else []) ++
  (if 0 < col ∧ room.tiles.getD (idx - 1) .wall ≠ .wall
   then [idx - 1] else []) ++
  (if col < room.columns - 1 ∧ room.tiles.getD (idx + 1) .wall ≠ .wall
   then [idx + 1] else []) ++
  (if row < room.rows - 1 ∧ room.tiles.getD (idx + room.columns) .wall ≠ .wall
   then [idx + room.columns] else [])

/-- One step of the first phase of `connected_tile_sets`: place tile `idx`
into every existing set containing one of its non-Wall neighbours, or start
a new singleton set. -/
def placeTile (room : DungeonRoom) (sets : List (Finset Nat)) (idx : Nat) :
    List (Finset Nat) :=
  if room.tiles.getD idx .wall = .wall then sets
  else
    let neighs := neighborFloors room idx
    let found := sets.any (fun s => neighs.any (fun n => n ∈ s))
    let sets' := sets.map (fun s => if neighs.any (fun n => n ∈ s) then insert idx s else s)
    if found then sets' else sets' ++ [{idx}]

/-- Embeds `eliminate_empty`. -/
def eliminateEmpty (tileSets : List (Finset Nat)) : List (Finset Nat) :=
  tileSets.filter (fun ts => 0 < ts.card)

/-- The body of `merge_iteration`'s double loop for one ordered pair:
merge `result[i]` and `result[j]` when they share an element. -/
def mergePair (acc : List (Finset Nat) × Bool) (p : Nat × Nat) :
    List (Finset Nat) × Bool :=
  let ts1 := acc.1.getD p.1 ∅
  let ts2 := acc.1.getD p.2 ∅
  if (ts1 ∩ ts2).Nonempty then
    (((acc.1.set p.1 (ts1 ∪ ts2)).set p.2 ∅), true)
  else acc

/-- The ordered pairs `(idx1, idx2)`, `idx1 < idx2 < n`, in the iteration
order of `merge_iteration`'s nested loops. -/
def pairList (n : Nat) : List (Nat × Nat) :=
  (List.range n).flatMap (fun i => ((List.range n).filter (fun j => i < j)).map (fun j => (i, j)))

/-- Embeds `merge_iteration`. -/
def mergeIteration (tileSets : List (Finset Nat)) : List (Finset Nat) × Bool :=
  (pairList tileSets.length).foldl mergePair (tileSets, false)

/-- The `while merge_again` loop of `merge`, with fuel.  Each productive
iteration strictly decreases the number of non-empty sets, so the fuel
chosen by `merge` below is always sufficient. -/
def mergeLoop (fuel : Nat) (result : List (Finset Nat)) : List (Finset Nat) :=
  match fuel with
  | 0 => result
  | fuel + 1 =>
    let result := eliminateEmpty (result.filter (fun t => 0 < t.card))
    let (r, m) := mergeIteration result
    if m then mergeLoop fuel r else r

/-- Embeds `merge`. -/
def merge (tileSets : List (Finset Nat)) : List (Finset Nat) :=
  mergeLoop (tileSets.length + 1) tileSets

/-- Embeds `connected_tile_sets`. -/
def connectedTileSets (room : DungeonRoom) : List (Finset Nat) :=
  merge ((List.range room.tiles.length).foldl (placeTile room) [])

/-! ## `DungeonRoom::pathing` and `close_side` -/

/-- The members of a finite set of naturals in ascending order (the result
of Rust's `Vec::sort` on the collected set). -/
def sortedMembers (s : Finset Nat) : List Nat :=
  (List.range (s.sup id + 1)).filter (fun i => decide (i ∈ s))

/-- Rust's `Iterator::max_by` on set sizes: of several equally large sets
the last one wins. -/
def maxByLenLast (sets : List (Finset Nat)) : Option (Finset Nat) :=
  sets.foldl
    (fun acc s =>
      match acc with
      | Option.none => some s
      | some m => if m.card ≤ s.card then some s else some m)
    Option.none

/-- Whether tile `idx` lies on the border of the room. -/
def DungeonRoom.onBorder (r : DungeonRoom) (idx : Nat) : Bool :=
  r.row idx = 0 || r.row idx = r.rows - 1 || r.col idx = 0 || r.col idx = r.columns - 1

/-- Embeds `DungeonRoom::find_exit_directions`.  The Rust version collects into a
`HashSet` whose iteration order is unspecified; here first-insertion order
is used (no claim depends on the order of this list). -/
def findExitDirections (r : DungeonRoom) : List Direction3D :=
  r.exits.foldl
    (fun result exitTile =>
      let row := r.row exitTile
      let col := r.col exitTile
      let result := if row = 0 ∧ ¬ result.contains .top then result ++ [.top] else result
      let result := if col = 0 ∧ ¬ result.contains .left then result ++ [.left] else result
      let result :=
        if row = r.rows - 1 ∧ ¬ result.contains .bottom then result ++ [.bottom] else result
      if col = r.columns - 1 ∧ ¬ result.contains .right then result ++ [.right] else result)
    []

/-- Embeds `DungeonRoom::pathing()`: recompute the pathing set (the largest
connected component, sorted), append its border tiles to `exits`, and
refresh `exit_directions`.  `none` models the `unwrap` panic on a room with
no non-Wall tile. -/
def pathingStep (r : DungeonRoom) : Option DungeonRoom :=
  match maxByLenLast (connectedTileSets r) with
  | Option.none => Option.none
  | some largest =>
    let pathing := sortedMembers largest
    let exits := r.exits ++ pathing.filter (fun idx => r.onBorder idx)
    let r' := { r with pathing := pathing, exits := exits }
    some { r' with exitDirections := findExitDirections r' }

/-- One tile of the `for idx in tile_idxs` loop of
`DungeonRoom::close_side`: seal a non-Wall tile and drop it from the exit
list, recording that a change happened. -/
def closeSideStep (acc : DungeonRoom × Bool) (idx : Nat) : DungeonRoom × Bool :=
  if acc.1.tiles.getD idx .wall ≠ .wall then
    ({ acc.1 with
        tiles := acc.1.tiles.set idx .wall
        exits := acc.1.exits.filter (fun x => x ≠ idx) }, true)
  else acc

/-- Embeds `DungeonRoom::close_side`. -/
def closeSide (r : DungeonRoom) (direction : Direction3D) : Option DungeonRoom :=
  let (r', changed) := (r.sideIndexes direction).foldl closeSideStep (r, false)
  if changed then pathingStep r' else some r'

/-! ## Floor-architecture value types (`src/floor/floor_architecture.rs`) -/

/-- Embeds `RoomCoordinates`. -/
structure RoomCoordinates where
  col : Int
  row : Int
deriving DecidableEq, Repr

/-- Embeds `RoomCoordinates::clone_delta_row`. -/
def RoomCoordinates.cloneDeltaRow (c : RoomCoordinates) (delta : Int) : RoomCoordinates :=
  { row := c.row + delta, col := c.col }

/-- Embeds `RoomCoordinates::clone_delta_col`. -/
def RoomCoordinates.cloneDeltaCol (c : RoomCoordinates) (delta : Int) : RoomCoordinates :=
  { row := c.row, col := c.col + delta }

/-- Embeds `FloorRoom`. -/
structure FloorRoom where
  coords : RoomCoordinates
  exits : List Direction3D
  stairUp : Bool
  stairDown : Bool
deriving DecidableEq, Repr

/-- Embeds `FloorLayout`. -/
structure FloorLayout where
  rooms : List FloorRoom
  floor : Int
deriving DecidableEq, Repr

/-! ## Drunkard's-walk room builder (`src/room/drunkard.rs`) -/

/-- Embeds `Mode`. -/
inductive Mode where
  | findExits
  | reverseCenter
deriving DecidableEq, Repr

/-- Embeds `DrunkardRoomBuilder`. -/
structure DrunkardRoomBuilder where
  rows : Nat
  cols : Nat
  iterations : Nat
  steps : Nat
  mode : Mode
deriving DecidableEq, Repr

/-- The tile the drunkard digs, per mode. -/
def dugTile : Mode → DungeonTile
  | .findExits => .floor
  | .reverseCenter => .wall

/-- One random step of the drunkard walk (the `match rng.gen_range(0..4)`
arm of `drunkard`). -/
def stepPos (d : Nat) (pos : Int × Int) : Int × Int :=
  match d with
  | 0 => (pos.1 - 1, pos.2)
  | 1 => (pos.1 + 1, pos.2)
  | 2 => (pos.1, pos.2 - 1)
  | _ => (pos.1, pos.2 + 1)

/-- The walk loop of `DrunkardRoomBuilder::drunkard`: `k` counts the
still-allowed `distance_staggered` increments, so the loop is structurally
recursive; `none` models the negative-coordinates panic branch. -/
def drunkardGo (dug : DungeonTile) (room : DungeonRoom) (pos : Int × Int) (rng : Rng)
    (k : Nat) : Option (DungeonRoom × Rng) :=
  if pos.1 < 0 ∨ pos.2 < 0 then Option.none
  else
    let drunkIdx := room.roomIdx pos.1.toNat pos.2.toNat
    let room := { room with tiles := room.tiles.set drunkIdx dug }
    let (d, rng) := genRange 0 4 rng
    let pos : Int × Int := stepPos d pos
    if pos.1 < 0 ∨ pos.2 < 0 then some (room, rng)
    else if ¬ room.inBounds pos.1 pos.2 ∨ room.isCorner pos.1.toNat pos.2.toNat then
      some (room, rng)
    else
      match k with
      | 0 => some (room, rng)
      | k + 1 => drunkardGo dug room pos rng k

/-- Embeds `DrunkardRoomBuilder::drunkard`. -/
def DrunkardRoomBuilder.drunkard (b : DrunkardRoomBuilder) (start : Nat × Nat) (rng : Rng)
    (room : DungeonRoom) : Option (DungeonRoom × Rng) :=
  drunkardGo (dugTile b.mode) room ((start.1 : Int), (start.2 : Int)) rng b.steps

/-- Embeds `get_hit_exits` (the drunkard's copy and the `RoomBuilder` trait default
are textually identical): which sides have been hit by a Floor tile,
labelled with the source's own row convention (`row == rows - 1 ↦ Top`,
`row == 0 ↦ Bottom`). -/
def getHitExits (rows cols : Nat) (room : DungeonRoom) : List Direction3D :=
  (List.range room.tiles.length).foldl
    (fun dirs idx =>
      if room.tiles.getD idx .wall ≠ .floor then dirs
      else
        let row := room.row idx
        let col := room.col idx
        let dirs := if row = rows - 1 ∧ ¬ dirs.contains .top then dirs ++ [.top] else dirs
        let dirs := if row = 0 ∧ ¬ dirs.contains .bottom then dirs ++ [.bottom] else dirs
        let dirs := if col = cols - 1 ∧ ¬ dirs.contains .right then dirs ++ [.right] else dirs
        if col = 0 ∧ ¬ dirs.contains .left then dirs ++ [.left] else dirs)
    []

/-- One accumulator step of Rust's `Iterator::min_by_key` (the first of
several equal minima wins). -/
def minStep {α : Type} (key : α → Nat) (acc : Option α) (x : α) : Option α :=
  match acc with
  | Option.none => some x
  | some m => if key x < key m then some x else some m

/-- Rust's `Iterator::min_by_key`: of several equal minima the first wins. -/
def minByKeyFirst {α : Type} (key : α → Nat) (l : List α) : Option α :=
  l.foldl (minStep key) Option.none

/-- One accumulator step of Rust's `Iterator::max_by_key` (the last of
several equal maxima wins). -/
def maxStep {α : Type} (key : α → Nat) (acc : Option α) (x : α) : Option α :=
  match acc with
  | Option.none => some x
  | some m => if key m ≤ key x then some x else some m

/-- Rust's `Iterator::max_by_key`: of several equal maxima the last wins. -/
def maxByKeyLast {α : Type} (key : α → Nat) (l : List α) : Option α :=
  l.foldl (maxStep key) Option.none

/-- Embeds `DrunkardRoomBuilder::calculate_next_start_point`. -/
def DrunkardRoomBuilder.calculateNextStartPoint (b : DrunkardRoomBuilder)
    (room : DungeonRoom) (exitsHit exitsToHit : List Direction3D) : Nat × Nat :=
  let center := (b.rows / 2, b.cols / 2)
  if b.mode = .reverseCenter then center
  else
    match exitsToHit.find? (fun e => ¬ exitsHit.contains e) with
    | Option.none => center
    | some direction =>
      let floors :=
        (List.range room.tiles.length).filter (fun idx => room.tiles.getD idx .wall = .floor)
      let result :=
        match direction with
        | .top => maxByKeyLast (fun idx => room.row idx) floors
        | .bottom => minByKeyFirst (fun idx => room.row idx) floors
        | .left => minByKeyFirst (fun idx => room.col idx) floors
        | .right => maxByKeyLast (fun idx => room.col idx) floors
        | _ => Option.none
      match result with
      | Option.none => center
      | some r => (room.row r, room.col r)

/-- The `while !all_exits_hit || iters < self.iterations` loop of
`DrunkardRoomBuilder::create_room`, with fuel for the unbounded retry. -/
def createRoomLoop (b : DrunkardRoomBuilder) (exitsToHit : List Direction3D) (fuel : Nat)
    (room : DungeonRoom) (nextStart : Nat × Nat) (exitsHit : List Direction3D)
    (allHit : Bool) (iters : Nat) (rng : Rng) :
    Option (DungeonRoom × List Direction3D × Rng) :=
  if ¬ allHit ∨ iters < b.iterations then
    match fuel with
    | 0 => Option.none
    | fuel + 1 =>
      match b.drunkard nextStart rng room with
      | Option.none => Option.none
      | some (room, rng) =>
        let exitsHit := getHitExits b.rows b.cols room
        let nextStart := b.calculateNextStartPoint room exitsHit exitsToHit
        let allHit := exitsToHit.all (fun e => exitsHit.contains e)
        createRoomLoop b exitsToHit fuel room nextStart exitsHit allHit (iters + 1) rng
  else some (room, exitsHit, rng)

/-- Embeds `DrunkardRoomBuilder::create_room` (fuel-bounded). -/
def DrunkardRoomBuilder.createRoom (b : DrunkardRoomBuilder) (rng : Rng)
    (roomConfig : FloorRoom) (fuel : Nat) : Option (DungeonRoom × Rng) :=
  let defaultTileType : DungeonTile :=
    match b.mode with
    | .findExits => .wall
    | .reverseCenter => .floor
  let room : DungeonRoom :=
    { DungeonRoom.default with
        tiles := List.replicate (b.rows * b.cols) defaultTileType
        rows := b.rows
        columns := b.cols
        stairUp := roomConfig.stairUp
        stairDown := roomConfig.stairDown }
  match createRoomLoop b roomConfig.exits fuel room (b.rows / 2, b.cols / 2) [] false 0 rng with
  | Option.none => Option.none
  | some (room, exitsHit, rng) =>
    let unwanted := exitsHit.filter (fun e => ¬ roomConfig.exits.contains e)
    match unwanted.foldl (fun acc d => acc.bind (fun r => closeSide r d)) (some room) with
    | Option.none => Option.none
    | some room => some (room, rng)

/-! ## Grid room builder (`src/room/grid.rs`) -/

/-- Embeds `Alignment`. -/
inductive Alignment where
  | vertically
  | horizontally
deriving DecidableEq, Repr

/-- Embeds `Dimension` from `src/room/math.rs`. -/
structure Dimension where
  vertical : Nat
  horizontal : Nat
deriving DecidableEq, Repr

/-- The rectangle type used by the grid builder (`Rect::new(row1, row2,
col1, col2)` with inclusive bounds). -/
structure GRect where
  row1 : Nat
  row2 : Nat
  col1 : Nat
  col2 : Nat
deriving DecidableEq, Repr

/-- Embeds `Rect::center` (integer-truncated midpoint), as `(row, col)`. -/
def GRect.center (r : GRect) : Nat × Nat :=
  ((r.row1 + r.row2) / 2, (r.col1 + r.col2) / 2)

/-- Embeds `GridRoomBuilder`. -/
structure GridRoomBuilder where
  rectSize : Dimension
  rects : Dimension
deriving DecidableEq, Repr

/-- Embeds `GridRoomBuilder::get_rows`. -/
def GridRoomBuilder.getRows (b : GridRoomBuilder) : Nat :=
  b.rectSize.vertical * b.rects.vertical + b.rects.vertical + 1

/-- Embeds `GridRoomBuilder::get_cols`. -/
def GridRoomBuilder.getCols (b : GridRoomBuilder) : Nat :=
  b.rectSize.horizontal * b.rects.horizontal + b.rects.horizontal + 1

/-- Embeds `GridRoomBuilder::create_rects`. -/
def GridRoomBuilder.createRects (b : GridRoomBuilder) : List GRect :=
  (List.range b.rects.vertical).flatMap (fun row =>
    let nextRowPosition := 1 + row * (b.rectSize.vertical + 1)
    (List.range b.rects.horizontal).map (fun col =>
      let nextColPosition := 1 + col * (b.rectSize.horizontal + 1)
      { row1 := nextRowPosition
        row2 := nextRowPosition + b.rectSize.vertical - 1
        col1 := nextColPosition
        col2 := nextColPosition + b.rectSize.horizontal - 1 }))

/-- Embeds `GridRoomBuilder::fill`: carve every sub-rectangle as Floor. -/
def GridRoomBuilder.fill (room : DungeonRoom) (rects : List GRect) : DungeonRoom :=
  rects.foldl
    (fun room rect =>
      (List.range (rect.col2 + 1 - rect.col1)).foldl
        (fun room dc =>
          (List.range (rect.row2 + 1 - rect.row1)).foldl
            (fun room dr =>
              { room with
                  tiles := room.tiles.set (room.roomIdx (rect.row1 + dr) (rect.col1 + dc)) .floor })
            room)
        room)
    room

/-- Embeds `GridRoomBuilder::total_rects`. -/
def GridRoomBuilder.totalRects (b : GridRoomBuilder) : Nat :=
  b.rects.horizontal * b.rects.vertical

/-- Embeds `GridRoomBuilder::possible_doorway_rects`. -/
def GridRoomBuilder.possibleDoorwayRects (b : GridRoomBuilder) (align : Alignment)
    (iteration : Nat) : List Nat :=
  match align with
  | .horizontally =>
    let current := iteration * b.rects.horizontal
    (List.range b.rects.horizontal).map (fun i => current + i)
  | .vertically => stepRange iteration b.totalRects b.rects.vertical

/-- Embeds `GridRoomBuilder::find_doorway_connections`. -/
def GridRoomBuilder.findDoorwayConnections (b : GridRoomBuilder) (rng : Rng)
    (align : Alignment) : List Nat × Rng :=
  let doorwaysAmount :=
    match align with
    | .vertically => b.rects.vertical - 1
    | .horizontally => b.rects.horizontal - 1
  (List.range doorwaysAmount).foldl
    (fun (acc : List Nat × Rng) i =>
      let selection := b.possibleDoorwayRects align i
      let (doorwayIdx, rng) := genRange 0 selection.length acc.2
      (acc.1 ++ [selection.getD doorwayIdx 0], rng))
    ([], rng)

/-- Embeds `GridRoomBuilder::connect`. -/
def GridRoomBuilder.connect (b : GridRoomBuilder) (room : DungeonRoom) (rects : List GRect)
    (rng : Rng) : DungeonRoom × Rng :=
  let (a, rng) := genRange 0 2 rng
  let align : Alignment := if a = 0 then .vertically else .horizontally
  let (doorways, rng) := b.findDoorwayConnections rng align
  let h := b.rects.horizontal
  let v := b.rects.vertical
  rects.enum.foldl
    (fun (acc : DungeonRoom × Rng) (p : Nat × GRect) =>
      let (idx, rect) := p
      let (room, rng) := acc
      let (room, rng) :=
        if (align = .horizontally ∧ idx % h ≠ h - 1) ∨
            (align = .vertically ∧ doorways.contains idx) then
          let room :=
            { room with tiles := room.tiles.set (room.roomIdx rect.center.1 (rect.col2 + 1)) .floor }
          let (d, rng) := genRange 0 4 rng
          let room :=
            if d = 0 then
              (List.range b.rectSize.vertical).foldl
                (fun room i =>
                  { room with
                      tiles := room.tiles.set (room.roomIdx (rect.row1 + i) (rect.col2 + 1)) .floor })
                room
            else room
          (room, rng)
        else (room, rng)
      if (align = .vertically ∧ idx < h * (v - 1)) ∨
          (align = .horizontally ∧ doorways.contains idx) then
        let room :=
          { room with tiles := room.tiles.set (room.roomIdx (rect.row2 + 1) rect.center.2) .floor }
        let (d, rng) := genRange 0 4 rng
        let room :=
          if d = 0 then
            (List.range b.rectSize.horizontal).foldl
              (fun room i =>
                { room with
                    tiles := room.tiles.set (room.roomIdx (rect.row2 + 1) (rect.col1 + i)) .floor })
              room
          else room
        (room, rng)
      else (room, rng))
    (room, rng)

/-- Embeds `GridRoomBuilder::room_from_rects`. -/
def GridRoomBuilder.roomFromRects (b : GridRoomBuilder) (rng : Rng) (rects : List GRect) :
    DungeonRoom × Rng :=
  let room : DungeonRoom :=
    { DungeonRoom.default with
        tiles := List.replicate (b.getCols * b.getRows) .wall
        columns := b.getCols
        rows := b.getRows }
  let room := GridRoomBuilder.fill room rects
  b.connect room rects rng

/-! ## Floor layout (`src/floor/floor_architecture.rs`) -/

/-- Embeds `Position` from `src/room/math.rs`. -/
structure Position where
  row : Int
  col : Int
deriving DecidableEq, Repr

/-- Embeds `RoomCoordinates::from_position`. -/
def RoomCoordinates.fromPosition (pos : Position) : RoomCoordinates :=
  { row := pos.row, col := pos.col }

/-- One random step of the floor-digging walk (the `match rng.gen_range(0..4)`
arm of `randomized_layout`). -/
def stepRoomCoord (d : Nat) (pos : RoomCoordinates) : RoomCoordinates :=
  match d with
  | 0 => pos.cloneDeltaCol 1
  | 1 => pos.cloneDeltaCol (-1)
  | 2 => pos.cloneDeltaRow 1
  | _ => pos.cloneDeltaRow (-1)

/-- The `while layout.len() < floor_size` loop of `randomized_layout`,
with fuel for the unbounded digging walk. -/
def randomizedLayoutGo (floorSize : Nat) (fuel : Nat) (pos : RoomCoordinates)
    (layout : List RoomCoordinates) (rng : Rng) : Option (List RoomCoordinates × Rng) :=
  if layout.length < floorSize then
    match fuel with
    | 0 => Option.none
    | fuel + 1 =>
      let (d, rng) := genRange 0 4 rng
      let pos := stepRoomCoord d pos
      let layout := if ¬ layout.contains pos then layout ++ [pos] else layout
      randomizedLayoutGo floorSize fuel pos layout rng
  else some (layout, rng)

/-- Embeds `randomized_layout` (fuel-bounded). -/
def randomizedLayout (floorSize : Nat) (rng : Rng) (startRoom : Position) (fuel : Nat) :
    Option (List RoomCoordinates × Rng) :=
  let pos := RoomCoordinates.fromPosition startRoom
  randomizedLayoutGo floorSize fuel pos [pos] rng

/-- Embeds `get_exits`: derive each coordinate's exit directions from set
membership of the four neighbours. -/
def exitsFor (allCoords : List RoomCoordinates) (coords : RoomCoordinates) :
    List Direction3D :=
  (if allCoords.contains (coords.cloneDeltaCol 1) then [.right] else []) ++
  (if allCoords.contains (coords.cloneDeltaCol (-1)) then [.left] else []) ++
  (if allCoords.contains (coords.cloneDeltaRow (-1)) then [.top] else []) ++
  (if allCoords.contains (coords.cloneDeltaRow 1) then [.bottom] else [])

/-- Embeds `get_exits`: pair every coordinate with its derived exit
directions. -/
def getExits (allCoords : List RoomCoordinates) :
    List (RoomCoordinates × List Direction3D) :=
  allCoords.map (fun coords => (coords, exitsFor allCoords coords))

/-- Embeds `create_floor_layout` (fuel-bounded). -/
def createFloorLayout (floorSize : Nat) (floorNumber : Int) (rng : Rng)
    (startRoom : Position) (fuel : Nat) : Option (FloorLayout × Rng) :=
  match randomizedLayout floorSize rng startRoom fuel with
  | Option.none => Option.none
  | some (coords, rng) =>
    let rooms : List FloorRoom :=
      (getExits coords).map (fun conf =>
        { coords := conf.1, exits := conf.2, stairUp := false, stairDown := false })
    some ({ rooms := rooms, floor := floorNumber }, rng)

/-! ## Dungeon architecture (`src/dungeon/dungeon_architecture.rs`,
`src/dungeon/coords.rs`, `src/dungeon/layout.rs`) -/

/-- Embeds `DungeonCoordinates`. -/
structure DungeonCoordinates where
  floor : Int
  col : Int
  row : Int
deriving DecidableEq, Repr

/-- Embeds `StairCoordinates`. -/
structure StairCoordinates where
  lowerFloor : DungeonCoordinates
  upperFloor : DungeonCoordinates
deriving DecidableEq, Repr

/-- Embeds `StairCoordinates::from_coords`. -/
def StairCoordinates.fromCoords (row col floor1 floor2 : Int) : StairCoordinates :=
  let lowerFloor := min floor1 floor2
  let upperFloor := max floor1 floor2
  { lowerFloor := { floor := lowerFloor, col := col, row := row }
    upperFloor := { floor := upperFloor, col := col, row := row } }

/-- Embeds `DungeonLayoutConfig`: each field is an inclusive-exclusive range
`(lo, hi)`. -/
structure DungeonLayoutConfig where
  floorsAbove : Nat × Nat
  floorsBelow : Nat × Nat
  floorSize : Nat × Nat
deriving DecidableEq, Repr

/-- Embeds `DungeonLayout`. -/
structure DungeonLayout where
  coords : List DungeonCoordinates
  floors : List FloorLayout
  stairs : List StairCoordinates
  firstRoom : DungeonCoordinates
  lastRoom : DungeonCoordinates
deriving DecidableEq, Repr

/-- Embeds `DungeonLayout::default()`. -/
def DungeonLayout.default : DungeonLayout :=
  { coords := [], floors := [], stairs := []
    firstRoom := { floor := 0, col := 0, row := 0 }
    lastRoom := { floor := 0, col := 0, row := 0 } }

/-- Manhattan distance used by `find_distanced_room_on_floor`. -/
def floorDist (from_ c : DungeonCoordinates) : Nat :=
  (from_.row - c.row).natAbs + (from_.col - c.col).natAbs

/-- Embeds `find_distanced_room_on_floor` (`none` models the `unwrap` panic on a
floor without rooms). -/
def findDistancedRoomOnFloor (layout : DungeonLayout) (from_ : DungeonCoordinates) :
    Option DungeonCoordinates :=
  maxByKeyLast (floorDist from_) (layout.coords.filter (fun c => c.floor = from_.floor))

/-- Embeds `find_distanced_room_in_dungeon` (floor delta weighted 4×). -/
def findDistancedRoomInDungeon (layout : DungeonLayout) (from_ : DungeonCoordinates) :
    Option DungeonCoordinates :=
  maxByKeyLast
    (fun c => (from_.row - c.row).natAbs + (from_.col - c.col).natAbs +
      (from_.floor - c.floor).natAbs * 4)
    layout.coords

/-- The free function `set_stairs` of `dungeon_architecture.rs`: tag every
room whose dungeon coordinates match a stair endpoint. -/
def setStairsLayout (layout : DungeonLayout) : DungeonLayout :=
  let upRooms := layout.stairs.map (·.lowerFloor)
  let downRooms := layout.stairs.map (·.upperFloor)
  { layout with
      floors := layout.floors.map (fun floor =>
        { floor with
            rooms := floor.rooms.map (fun room =>
              let dungeonCoords : DungeonCoordinates :=
                { floor := floor.floor, col := room.coords.col, row := room.coords.row }
              { room with
                  stairUp := upRooms.contains dungeonCoords
                  stairDown := downRooms.contains dungeonCoords })})}

/-- Embeds `DungeonArchitect::layout_floor`. -/
def layoutFloor (cfg : DungeonLayoutConfig) (rng : Rng) (layout : DungeonLayout)
    (startRoom : Position) (floor : Int) (fuel : Nat) : Option (DungeonLayout × Rng) :=
  let (floorSize, rng) := genRange cfg.floorSize.1 cfg.floorSize.2 rng
  match createFloorLayout floorSize floor rng startRoom fuel with
  | Option.none => Option.none
  | some (groundFloor, rng) =>
    some
      ({ layout with
          floors := layout.floors ++ [groundFloor]
          coords := layout.coords ++ groundFloor.rooms.map (fun room =>
            { floor := floor, col := room.coords.col, row := room.coords.row }) }, rng)

/-- One iteration of the `for floor_abs in floors` loop of
`DungeonArchitect::layout_floors`, threading the accumulated layout, the
next floor's start room, the previous floor index and the RNG. -/
def layoutFloorsStep (cfg : DungeonLayoutConfig) (negativeFloors : Bool) (fuel : Nat)
    (acc : Option (DungeonLayout × Position × Int × Rng)) (floorAbs : Nat) :
    Option (DungeonLayout × Position × Int × Rng) :=
  match acc with
  | Option.none => Option.none
  | some (layout, floorStartRoom, floorBefore, rng) =>
    let floor : Int := if negativeFloors then -(floorAbs : Int) else (floorAbs : Int)
    let layout :=
      { layout with
          stairs := layout.stairs ++
            [StairCoordinates.fromCoords floorStartRoom.row floorStartRoom.col
              floorBefore floor] }
    match layoutFloor cfg rng layout floorStartRoom floor fuel with
    | Option.none => Option.none
    | some (layout, rng) =>
      match findDistancedRoomOnFloor layout
          { floor := floor, col := floorStartRoom.col, row := floorStartRoom.row } with
      | Option.none => Option.none
      | some distancedRoom =>
        some (layout, { row := distancedRoom.row, col := distancedRoom.col }, floor, rng)

/-- Embeds `DungeonArchitect::layout_floors`: the `for floor_abs in floors` loop
plus the final stair tagging. -/
def layoutFloors (cfg : DungeonLayoutConfig) (rng : Rng) (layout : DungeonLayout)
    (startRoom : Position) (floors : List Nat) (negativeFloors : Bool) (fuel : Nat) :
    Option (DungeonLayout × Rng) :=
  match floors.foldl (layoutFloorsStep cfg negativeFloors fuel)
      (some (layout, startRoom, 0, rng)) with
  | Option.none => Option.none
  | some (layout, _, _, rng) => some (setStairsLayout layout, rng)

/-- Embeds `DungeonArchitect::create_dungeon_layout` (fuel-bounded). -/
def createDungeonLayout (cfg : DungeonLayoutConfig) (rng : Rng) (fuel : Nat) :
    Option (DungeonLayout × Rng) :=
  let (floorsAbove, rng) := genRange cfg.floorsAbove.1 cfg.floorsAbove.2 rng
  let (floorsBelow, rng) := genRange cfg.floorsBelow.1 cfg.floorsBelow.2 rng
  match layoutFloor cfg rng DungeonLayout.default { row := 0, col := 0 } 0 fuel with
  | Option.none => Option.none
  | some (layout, rng) =>
    match layout.coords.head? with
    | Option.none => Option.none
    | some first =>
      let layout := { layout with firstRoom := first }
      match findDistancedRoomOnFloor layout layout.firstRoom with
      | Option.none => Option.none
      | some stairRoom =>
        let above :=
          if 0 < floorsAbove then
            layoutFloors cfg rng layout { row := stairRoom.row, col := stairRoom.col }
              (List.range' 1 (floorsAbove + 1)) false fuel
          else some (layout, rng)
        match above with
        | Option.none => Option.none
        | some (layout, rng) =>
          let below :=
            if 0 < floorsBelow then
              layoutFloors cfg rng layout { row := stairRoom.row, col := stairRoom.col }
                (List.range' 1 (floorsBelow + 1)) true fuel
            else some (layout, rng)
          match below with
          | Option.none => Option.none
          | some (layout, rng) =>
            match findDistancedRoomInDungeon layout { floor := 0, col := 0, row := 0 } with
            | Option.none => Option.none
            | some lastRoom => some ({ layout with lastRoom := lastRoom }, rng)

/-! ## Assembler stair stamping (`src/dungeon/dungeon_builder.rs`,
`src/dungeon/room.rs`) -/

/-- Embeds `ArrangedDungeonRoom` (fields not touched by stair stamping included
for completeness). -/
structure ArrangedDungeonRoom where
  tiles : List DungeonTile
  pathing : List Nat
  rows : Nat
  columns : Nat
  dungeonCoords : DungeonCoordinates
  entry : Option (Nat × Direction3D)
  exits : List (Nat × Direction3D)
  rotation : Int
  stairUp : Bool
  stairDown : Bool
deriving DecidableEq, Repr

/-- Rust's `.step_by(2)` on an iterator, as a list transform. -/
def stepTwo {α : Type} : List α → List α
  | [] => []
  | [a] => [a]
  | a :: _ :: rest => a :: stepTwo rest

/-- The scan loop of `DungeonBuilder::set_stairs`: the first tile index in
the scan sequence holding a plain Floor, or `-1`. -/
def findTargetTile (tiles : List DungeonTile) : List Nat → Int
  | [] => -1
  | p :: rest =>
    if tiles.getD p .wall = .floor then (p : Int) else findTargetTile tiles rest

/-- Embeds `DungeonBuilder::set_stairs`: scan every second pathing entry from
`targetPathTile` for the first plain Floor tile; convert it only when the
found index is strictly positive. -/
def setStairs (room : ArrangedDungeonRoom) (stairTile : DungeonTile)
    (targetPathTile : Nat) : ArrangedDungeonRoom :=
  let targetTile := findTargetTile room.tiles (stepTwo (room.pathing.drop targetPathTile))
  if 0 < targetTile then
    { room with tiles := room.tiles.set targetTile.toNat stairTile }
  else room

/-- Embeds `DungeonBuilder::set_all_stairs`. -/
def setAllStairs (room : ArrangedDungeonRoom) : ArrangedDungeonRoom :=
  let targetPathTile := room.pathing.length / 3
  let (room, targetPathTile) :=
    if room.stairDown then (setStairs room .stairsDown targetPathTile, targetPathTile * 2)
    else (room, targetPathTile)
  if room.stairUp then setStairs room .stairsUp targetPathTile else room

/-- Scan description used by the amended stair-placement claim: the first
entry, among every second pathing entry starting at `offset`, holding a
plain Floor tile. -/
def scanFirstFloor (tiles : List DungeonTile) (pathing : List Nat) (offset : Nat) :
    Option Nat :=
  (stepTwo (pathing.drop offset)).find? (fun p => decide (tiles.getD p .wall = .floor))

/-- States the amended C3 claim in the spec's words: StairsDown is placed
at the scan result for offset `len/3` when its index is positive; the
StairsUp scan starts at `2*(len/3)` when `stair_down` is also set and at
`len/3` otherwise, over the tiles already updated by the down placement,
again converting only a positive index. -/
def stairPlacementSpec (room : ArrangedDungeonRoom) : ArrangedDungeonRoom :=
  let L := room.pathing.length / 3
  let room1 :=
    if room.stairDown then
      match scanFirstFloor room.tiles room.pathing L with
      | some p => if 0 < p then { room with tiles := room.tiles.set p .stairsDown } else room
      | Option.none => room
    else room
  let upOffset := if room.stairDown then 2 * L else L
  if room.stairUp then
    match scanFirstFloor room1.tiles room.pathing upOffset with
    | some p => if 0 < p then { room1 with tiles := room1.tiles.set p .stairsUp } else room1
    | Option.none => room1
  else room1

/-! ## Specification-side predicates

These definitions follow the spec's vocabulary (border directions, 4-connected
paths, grid steps) and are used to state the claims against the embedded code.
The geometric convention is the one used by the floor architect, the renderer
and `DungeonRoom::find_exit_directions`: row 0 is the Top border, row
`rows - 1` the Bottom border, column 0 Left, column `columns - 1` Right. -/

/-- Tile index `idx` lies on the border of direction `d` of the room. -/
def onBorderDir (room : DungeonRoom) (d : Direction3D) (idx : Nat) : Bool :=
  match d with
  | .top => room.row idx = 0
  | .bottom => room.row idx = room.rows - 1
  | .left => room.col idx = 0
  | .right => room.col idx = room.columns - 1
  | _ => false

/-- The largest 4-connected non-Wall region of the room touches the border
of direction `d` (the region computed the same way `DungeonRoom::pathing`
selects it). -/
def touchesBorder (room : DungeonRoom) (d : Direction3D) : Bool :=
  match maxByLenLast (connectedTileSets room) with
  | Option.none => false
  | some s => (sortedMembers s).any (fun idx => onBorderDir room d idx)

/-- A valid non-Wall tile index of the room. -/
def nonWallTile (room : DungeonRoom) (idx : Nat) : Prop :=
  idx < room.tiles.length ∧ room.tiles.getD idx .wall ≠ .wall

/-- Two non-Wall tiles are 4-adjacent (N/E/S/W, no diagonals): horizontal
neighbours within the same row, or vertical neighbours one full row apart. -/
def tileAdj (room : DungeonRoom) (a b : Nat) : Prop :=
  nonWallTile room a ∧ nonWallTile room b ∧
  ((room.row a = room.row b ∧ (b = a + 1 ∨ a = b + 1)) ∨
    b = a + room.columns ∨ a = b + room.columns)

/-- Two tiles are joined by a path of non-Wall tiles in which consecutive
tiles are 4-adjacent. -/
def tileReach (room : DungeonRoom) : Nat → Nat → Prop :=
  Relation.ReflTransGen (tileAdj room)

/-- One grid step of a floor-layout coordinate in a cardinal direction
(rows grow downward, so Top is row − 1). -/
def stepCoord (d : Direction3D) (c : RoomCoordinates) : RoomCoordinates :=
  match d with
  | .top => { row := c.row - 1, col := c.col }
  | .bottom => { row := c.row + 1, col := c.col }
  | .left => { row := c.row, col := c.col - 1 }
  | .right => { row := c.row, col := c.col + 1 }
  | _ => c

/-! ## Concrete instances used by the counterexamples and witnesses -/

/-- A small drunkard's-walk builder (3×3, one iteration, one step). -/
def c1Builder : DrunkardRoomBuilder :=
  { rows := 3, cols := 3, iterations := 1, steps := 1, mode := .findExits }

/-- A room requirement asking for a single Bottom exit. -/
def c1Req : FloorRoom :=
  { coords := { col := 0, row := 0 }, exits := [.bottom], stairUp := false, stairDown := false }

/-- A layout configuration whose sampled `floors_above` is always 1 and
whose floors have exactly one room each. -/
def c2Cfg : DungeonLayoutConfig :=
  { floorsAbove := (1, 2), floorsBelow := (0, 1), floorSize := (1, 2) }

/-- The concrete output of `create_dungeon_layout` for the C2 witness. -/
def c2Out : DungeonLayout × Rng :=
  (createDungeonLayout c2Cfg [] 10).getD (DungeonLayout.default, [])

/-- A one-tile room flagged for a down stair whose only pathing tile is the
Floor tile at index 0. -/
def c3Room : ArrangedDungeonRoom where
  tiles := [.floor]
  pathing := [0]
  rows := 1
  columns := 1
  dungeonCoords := { floor := 0, col := 0, row := 0 }
  entry := Option.none
  exits := []
  rotation := 0
  stairUp := false
  stairDown := true

/-- The default grid room builder (3×3 sub-rectangles of size 3×3). -/
def c4Builder : GridRoomBuilder :=
  { rectSize := { vertical := 3, horizontal := 3 }, rects := { vertical := 3, horizontal := 3 } }

/-- A draw stream for the grid builder selecting horizontal alignment, the
first possible doorway in each secondary-axis iteration, and `d` as the
draw that decides the widening of the first primary-axis doorway. -/
def c4Stream (d : Nat) : Rng := [1, 0, 0, d]

/-- The room produced by `room_from_rects` on the default grid layout under
`c4Stream d`. -/
def c4Room (d : Nat) : DungeonRoom :=
  (c4Builder.roomFromRects (c4Stream d) c4Builder.createRects).1

/-- The first primary-axis doorway of `c4Room` sits at (row 2, col 4); it
is widened to the full-width corridor exactly when tiles (1,4) and (3,4)
are carved. -/
def c4Widened (d : Nat) : Bool :=
  (c4Room d).tiles.getD ((c4Room d).roomIdx 1 4) .wall = .floor &&
  (c4Room d).tiles.getD ((c4Room d).roomIdx 3 4) .wall = .floor

/-- A 4×4 grid with two disjoint Floor blobs separated by Wall: a single
Floor at index 0 and a 12-tile Floor region. -/
def c5BlobRoom : DungeonRoom :=
  { DungeonRoom.default with
      tiles := (List.range 16).map (fun i => if i = 1 ∨ i = 4 ∨ i = 5 then .wall else .floor)
      rows := 4
      columns := 4 }

/-- A dungeon layout with three rooms on floor 0, two of them at maximal
Manhattan distance 2 from the origin. -/
def c7Layout : DungeonLayout :=
  { DungeonLayout.default with
      coords :=
        [ { floor := 0, col := 0, row := 0 }
        , { floor := 1, col := 5, row := 5 }
        , { floor := 0, col := 2, row := 0 }
        , { floor := 0, col := 0, row := 2 } ] }

/-- A 2×2 room with one Floor tile, used to witness the stair frame
conditions. -/
def c9Room : ArrangedDungeonRoom where
  tiles := [.wall, .floor, .floor, .floor]
  pathing := [1, 2, 3]
  rows := 2
  columns := 2
  dungeonCoords := { floor := 0, col := 0, row := 0 }
  entry := Option.none
  exits := []
  rotation := 0
  stairUp := true
  stairDown := true

/-- An all-Wall 3×3 room used to witness the panic-freedom of the walk. -/
def c8Room : DungeonRoom :=
  { DungeonRoom.default with tiles := List.replicate 9 .wall, rows := 3, columns := 3 }

/-- The concrete output of `create_floor_layout` for the floor-layout
witness (floor size 3, draws `[0, 0]`, start at the origin). -/
def c6Out : FloorLayout × Rng :=
  (createFloorLayout 3 0 [0, 0] { row := 0, col := 0 } 5).getD ({ rooms := [], floor := 0 }, [])

/-- The drunkard builder used to witness the corner invariant. -/
def c10Builder : DrunkardRoomBuilder :=
  { rows := 3, cols := 3, iterations := 1, steps := 1, mode := .findExits }

/-- A room requirement with no exits for the corner-invariant witness. -/
def c10Req : FloorRoom :=
  { coords := { col := 0, row := 0 }, exits := [], stairUp := false, stairDown := false }

/-- The concrete output of `create_room` for the corner-invariant witness. -/
def c10Out : DungeonRoom × Rng :=
  (c10Builder.createRoom [0, 0] c10Req 5).getD (DungeonRoom.default, [])

/-- The corner invariant: every non-Wall tile of the room lies off the four
corners (equivalently, all four corner tiles are Wall). -/
def CornersWall (room : DungeonRoom) : Prop :=
  ∀ i, room.tiles.getD i .wall ≠ .wall → room.isCorner (room.row i) (room.col i) = false

/-! ## Helper lemmas on the fold-based min/max selectors -/

theorem foldl_maxStep_some {α : Type} (key : α → Nat) :
    ∀ (l : List α) (a : α), ∃ b, List.foldl (maxStep key) (some a) l = some b := by
  intro l
  induction l with
  | nil => exact fun a => ⟨a, rfl⟩
  | cons y t ih =>
    intro a
    simp only [List.foldl_cons, maxStep]
    split
    · exact ih y
    · exact ih a

theorem maxByKeyLast_eq_none {α : Type} (key : α → Nat) (l : List α)
    (h : maxByKeyLast key l = Option.none) : l = [] := by
  cases l with
  | nil => rfl
  | cons a t =>
    exfalso
    unfold maxByKeyLast at h
    simp only [List.foldl_cons, maxStep] at h
    obtain ⟨b, hb⟩ := foldl_maxStep_some key t a
    rw [hb] at h
    exact Option.noConfusion h

theorem maxByKeyLast_append_single {α : Type} (key : α → Nat) (l : List α) (x : α) :
    maxByKeyLast key (l ++ [x]) = maxStep key (maxByKeyLast key l) x := by
  unfold maxByKeyLast
  rw [List.foldl_append]
  rfl

theorem maxByKeyLast_spec {α : Type} (key : α → Nat) (l : List α) (r : α)
    (h : maxByKeyLast key l = some r) :
    r ∈ l ∧ (∀ x ∈ l, key x ≤ key r) ∧
    ∃ i, ∃ hi : i < l.length, l[i] = r ∧
      ∀ j, (hj : j < l.length) → i < j → key l[j] < key r := by
  induction l using List.reverseRecOn generalizing r with
  | nil => exact absurd h (by simp [maxByKeyLast])
  | append_singleton t x ih =>
    rw [maxByKeyLast_append_single] at h
    cases hm : maxByKeyLast key t with
    | none =>
      have ht : t = [] := maxByKeyLast_eq_none key t hm
      subst ht
      rw [hm] at h
      simp only [maxStep] at h
      cases h
      refine ⟨by simp, by simp, 0, by simp, by simp, ?_⟩
      intro j hj hij
      simp at hj
      omega
    | some m =>
      rw [hm] at h
      obtain ⟨hmem, hbound, i, hi, hget, hlast⟩ := ih m hm
      simp only [maxStep] at h
      by_cases hc : key m ≤ key x
      · rw [if_pos hc] at h
        cases h
        refine ⟨by simp, ?_, t.length, by simp, by simp, ?_⟩
        · intro y hy
          rcases List.mem_append.mp hy with hy | hy
          · exact le_trans (hbound y hy) hc
          · simp at hy; subst hy; exact le_refl _
        · intro j hj hij
          simp at hj
          omega
      · rw [if_neg hc] at h
        cases h
        push_neg at hc
        refine ⟨List.mem_append.mpr (Or.inl hmem), ?_, i, ?_, ?_, ?_⟩
        · intro y hy
          rcases List.mem_append.mp hy with hy | hy
          · exact hbound y hy
          · simp at hy; subst hy; exact le_of_lt hc
        · simp; omega
        · rw [List.getElem_append_left hi]
          exact hget
        · intro j hj hij
          simp at hj
          by_cases hjt : j < t.length
          · rw [List.getElem_append_left hjt]
            exact hlast j hjt hij
          · have hjeq : j = t.length := by omega
            subst hjeq
            rw [List.getElem_append_right (le_refl _)]
            simpa using hc

theorem minByKeyFirst_mem {α : Type} (key : α → Nat) (l : List α) (r : α)
    (h : minByKeyFirst key l = some r) : r ∈ l := by
  suffices H : ∀ (t : List α) (acc : Option α),
      List.foldl (minStep key) acc t = some r →
      (acc = some r ∨ r ∈ t) by
    rcases H l Option.none h with h' | h'
    · exact absurd h' (by simp)
    · exact h'
  intro t
  induction t with
  | nil => intro acc h'; exact Or.inl h'
  | cons y t ih =>
    intro acc h'
    rcases ih (minStep key acc y) h' with h'' | h''
    · cases acc with
      | none =>
        simp only [minStep] at h''
        cases h''
        exact Or.inr (by simp)
      | some m =>
        simp only [minStep] at h''
        split at h''
        · cases h''; exact Or.inr (by simp)
        · exact Or.inl h''
    · exact Or.inr (List.mem_cons_of_mem _ h'')

theorem maxByKeyLast_mem {α : Type} (key : α → Nat) (l : List α) (r : α)
    (h : maxByKeyLast key l = some r) : r ∈ l :=
  (maxByKeyLast_spec key l r h).1

/-! ## Claim theorems -/

/-- C1: the claim states that for every room requirement and RNG state,
whenever `create_room` of any of the four builders returns, the largest
4-connected non-Wall region touches the border of direction D iff D is in
the requirement's exits.  This run evaluates the drunkard builder at the
failing input: a 3×3 builder with requirement `[Bottom]` and the draw
stream `[0, 0]` returns a room whose dominant region touches the Top
border (row 0) and not the Bottom border, because `get_hit_exits` labels a
Floor tile on row 0 as a `Bottom` hit — inverted with respect to the
border convention of `find_exit_directions`, `close_side` and the floor
architect. -/
theorem c1_failing_run :
    (c1Builder.createRoom [0, 0] c1Req 5).map
        (fun p => (touchesBorder p.1 .top, touchesBorder p.1 .bottom)) = some (true, false) ∧
    c1Req.exits = [Direction3D.bottom] := by decide

/-- C2 counterexample: with a configuration whose sampled `floors_above`
is 1 (and `floors_below` 0), `create_dungeon_layout` produces 2 floors
with positive floor index and 2 stair links with non-negative endpoints,
not 1 of each as the claim states: the loop range `1..floors_above + 2`
runs `floors_above + 1` times. -/
theorem c2_counterexample :
    (genRange c2Cfg.floorsAbove.1 c2Cfg.floorsAbove.2 []).1 = 1 ∧
    (createDungeonLayout c2Cfg [] 10).map
        (fun p => ((p.1.floors.filter (fun f => decide (0 < f.floor))).length,
          (p.1.stairs.filter
            (fun s => decide (0 ≤ s.lowerFloor.floor) && decide (0 ≤ s.upperFloor.floor))).length))
      = some (2, 2) ∧ (2 : Nat) ≠ 1 := by decide

/-- C3 counterexample: in a room with the `stair_down` flag set whose
pathing scan finds the plain Floor tile at index 0, the stair is omitted
even though the scan found a Floor tile, contradicting the claim's
"omitted if and only if this scan finds no plain Floor tile":
`set_stairs` guards the write with `target_tile > 0`. -/
theorem c3_counterexample :
    findTargetTile c3Room.tiles (stepTwo (c3Room.pathing.drop (c3Room.pathing.length / 3))) = 0 ∧
    c3Room.tiles.getD 0 .wall = .floor ∧ c3Room.stairDown = true ∧
    (setAllStairs c3Room).tiles.getD 0 .wall ≠ .stairsDown := by decide

/-- C4 counterexample: of the four equally likely outcomes of the RNG draw
deciding the widening of a primary-axis doorway in the grid builder,
exactly one (not two, as a probability of 1/2 would require) selects the
full-width corridor. -/
theorem c4_counterexample :
    ((List.range 4).filter (fun d => c4Widened d)).length = 1 ∧
    ((List.range 4).filter (fun d => c4Widened d)).length ≠ 2 := by decide

/-- C4 amended: after the doorway tile centered on the shared border is
carved, the doorway is widened into a full-width corridor with probability
1/4 — exactly one of the four equally likely outcomes of the
`gen_range(0..4)` draw (the value 0) selects the full-width corridor. -/
theorem c4_amended : ∀ d < 4, (c4Widened d = true ↔ d = 0) := by decide

/-- Witness for the amended C4 theorem at the concrete draw 0. -/
theorem c4_amended_witness : 0 < 4 ∧ (c4Widened 0 = true ↔ 0 = 0) :=
  ⟨by decide, c4_amended 0 (by decide)⟩

/-- C6 counterexample: `create_floor_layout` with requested floor size 0
returns a layout with 1 room, not 0: the walk records the start position
before checking the target count. -/
theorem c6_counterexample :
    (createFloorLayout 0 0 [] { row := 0, col := 0 } 5).map (fun p => p.1.rooms.length)
      = some 1 ∧ (1 : Nat) ≠ 0 := by decide

/-! ## Floor-layout lemmas (C6) -/

theorem mem_ite_singleton {α : Type} (x y : α) (c : Prop) [Decidable c] :
    (x ∈ if c then [y] else []) ↔ (c ∧ x = y) := by
  split <;> rename_i h <;> simp [h]

theorem randomizedLayoutGo_spec (floorSize : Nat) :
    ∀ (fuel : Nat) (pos : RoomCoordinates) (layout : List RoomCoordinates) (rng : Rng)
      (l' : List RoomCoordinates) (rng' : Rng),
      randomizedLayoutGo floorSize fuel pos layout rng = some (l', rng') →
      l'.length = max layout.length floorSize ∧
      (layout.Nodup → l'.Nodup) ∧
      (∀ x ∈ layout, x ∈ l') := by
  intro fuel
  induction fuel with
  | zero =>
    intro pos layout rng l' rng' h
    unfold randomizedLayoutGo at h
    by_cases hlt : layout.length < floorSize
    · rw [if_pos hlt] at h
      exact Option.noConfusion h
    · rw [if_neg hlt] at h
      cases h
      exact ⟨by omega, fun hn => hn, fun x hx => hx⟩
  | succ fuel ih =>
    intro pos layout rng l' rng' h
    unfold randomizedLayoutGo at h
    by_cases hlt : layout.length < floorSize
    · rw [if_pos hlt] at h
      dsimp only [genRange] at h
      set pos' := stepRoomCoord (0 + rng.headD 0 % (4 - 0)) pos with hpos'
      set layout' := if ¬ layout.contains pos' then layout ++ [pos'] else layout with hlay'
      have hprops : layout.length ≤ layout'.length ∧ layout'.length ≤ layout.length + 1 ∧
          (layout.Nodup → layout'.Nodup) ∧ (∀ x ∈ layout, x ∈ layout') := by
        rw [hlay']
        by_cases hc : layout.contains pos'
        · rw [if_neg (fun hcon => hcon hc)]
          exact ⟨le_refl _, by omega, fun hn => hn, fun x hx => hx⟩
        · rw [if_pos (by simpa using hc)]
          refine ⟨by simp, by simp, ?_, fun x hx => List.mem_append_left _ hx⟩
          intro hn
          have hnm : pos' ∉ layout := fun hm => hc (List.elem_eq_true_of_mem hm)
          simp [List.nodup_append, hn, hnm]
      obtain ⟨hlen, hnd, hmem⟩ := ih pos' layout' rng.tail l' rng' h
      refine ⟨by omega, fun hn => hnd (hprops.2.2.1 hn), fun x hx => hmem x (hprops.2.2.2 x hx)⟩
    · rw [if_neg hlt] at h
      cases h
      exact ⟨by omega, fun hn => hn, fun x hx => hx⟩

theorem randomizedLayout_spec (floorSize : Nat) (rng : Rng) (start : Position) (fuel : Nat)
    (coords : List RoomCoordinates) (rng' : Rng)
    (h : randomizedLayout floorSize rng start fuel = some (coords, rng')) :
    coords.length = max 1 floorSize ∧ coords.Nodup ∧
    RoomCoordinates.fromPosition start ∈ coords := by
  unfold randomizedLayout at h
  obtain ⟨hlen, hnd, hmem⟩ := randomizedLayoutGo_spec floorSize fuel _ _ rng coords rng' h
  exact ⟨by simpa using hlen, hnd (by simp), hmem _ (by simp)⟩

theorem stepCoord_opposite (c : RoomCoordinates) (d : Direction3D)
    (hd : d ∈ [Direction3D.top, .bottom, .left, .right]) :
    stepCoord d.opposite (stepCoord d c) = c := by
  fin_cases hd <;> simp [stepCoord, Direction3D.opposite] <;> omega

theorem mem_exitsFor (all : List RoomCoordinates) (c : RoomCoordinates) :
    (Direction3D.top ∈ exitsFor all c ↔ stepCoord .top c ∈ all) ∧
    (Direction3D.bottom ∈ exitsFor all c ↔ stepCoord .bottom c ∈ all) ∧
    (Direction3D.left ∈ exitsFor all c ↔ stepCoord .left c ∈ all) ∧
    (Direction3D.right ∈ exitsFor all c ↔ stepCoord .right c ∈ all) := by
  have htop : stepCoord .top c = c.cloneDeltaRow (-1) := rfl
  have hbot : stepCoord .bottom c = c.cloneDeltaRow 1 := rfl
  have hleft : stepCoord .left c = c.cloneDeltaCol (-1) := rfl
  have hright : stepCoord .right c = c.cloneDeltaCol 1 := rfl
  refine ⟨?_, ?_, ?_, ?_⟩ <;>
    simp [exitsFor, mem_ite_singleton, htop, hbot, hleft, hright, List.elem_iff]

theorem getExits_rooms_coords (coords : List RoomCoordinates) :
    List.map (fun r => FloorRoom.coords r)
      (List.map
        (fun conf => ({ coords := conf.1, exits := conf.2, stairUp := false, stairDown := false } : FloorRoom))
        (getExits coords)) = coords := by
  simp [getExits, List.map_map]
  exact List.map_id coords

theorem getExits_rooms_mem (coords : List RoomCoordinates) (room : FloorRoom)
    (hr : room ∈ List.map
      (fun conf => ({ coords := conf.1, exits := conf.2, stairUp := false, stairDown := false } : FloorRoom))
      (getExits coords)) :
    room.coords ∈ coords ∧ room.exits = exitsFor coords room.coords := by
  simp only [getExits, List.map_map, List.mem_map] at hr
  obtain ⟨c, hc, hceq⟩ := hr
  subst hceq
  exact ⟨hc, rfl⟩

/-- C6 amended: whenever `create_floor_layout` returns, the layout has
exactly `max 1 floorSize` rooms (the claim's "exactly floor-size" fails
only at floor size 0), all room coordinates are pairwise distinct, the
start position is among them, a room has an exit toward D iff the
coordinate one step in direction D is also in the coordinate set, and
exits are symmetric (if A exits toward B, B exits toward A's opposite). -/
theorem c6_amended (floorSize : Nat) (floorNumber : Int) (rng : Rng) (start : Position)
    (fuel : Nat) (fl : FloorLayout) (rng' : Rng)
    (h : createFloorLayout floorSize floorNumber rng start fuel = some (fl, rng')) :
    fl.rooms.length = max 1 floorSize ∧
    (fl.rooms.map (fun r => r.coords)).Nodup ∧
    RoomCoordinates.fromPosition start ∈ fl.rooms.map (fun r => r.coords) ∧
    (∀ room ∈ fl.rooms, ∀ d ∈ [Direction3D.top, .bottom, .left, .right],
      (d ∈ room.exits ↔ stepCoord d room.coords ∈ fl.rooms.map (fun r => r.coords))) ∧
    (∀ r1 ∈ fl.rooms, ∀ r2 ∈ fl.rooms, ∀ d ∈ [Direction3D.top, .bottom, .left, .right],
      d ∈ r1.exits → r2.coords = stepCoord d r1.coords → d.opposite ∈ r2.exits) := by
  unfold createFloorLayout at h
  cases hrl : randomizedLayout floorSize rng start fuel with
  | none => rw [hrl] at h; exact Option.noConfusion h
  | some pr =>
    obtain ⟨coords, rng2⟩ := pr
    rw [hrl] at h
    dsimp only at h
    cases h
    obtain ⟨hlen, hnd, hstart⟩ := randomizedLayout_spec floorSize rng start fuel coords _ hrl
    have hmap := getExits_rooms_coords coords
    refine ⟨by simp [getExits, hlen], by rw [hmap]; exact hnd, by rw [hmap]; exact hstart, ?_, ?_⟩
    · intro room hr d hd
      obtain ⟨hcm, hex⟩ := getExits_rooms_mem coords room hr
      rw [hmap, hex]
      fin_cases hd
      · exact (mem_exitsFor coords room.coords).1
      · exact (mem_exitsFor coords room.coords).2.1
      · exact (mem_exitsFor coords room.coords).2.2.1
      · exact (mem_exitsFor coords room.coords).2.2.2
    · intro r1 hr1 r2 hr2 d hd hdex hstep
      obtain ⟨hcm1, hex1⟩ := getExits_rooms_mem coords r1 hr1
      obtain ⟨hcm2, hex2⟩ := getExits_rooms_mem coords r2 hr2
      rw [hex2]
      have hop : stepCoord d.opposite r2.coords = r1.coords := by
        rw [hstep]
        exact stepCoord_opposite r1.coords d hd
      fin_cases hd
      · exact (mem_exitsFor coords r2.coords).2.1.mpr
          (by rw [show Direction3D.top.opposite = Direction3D.bottom from rfl] at hop
              rw [hop]; exact hcm1)
      · exact (mem_exitsFor coords r2.coords).1.mpr
          (by rw [show Direction3D.bottom.opposite = Direction3D.top from rfl] at hop
              rw [hop]; exact hcm1)
      · exact (mem_exitsFor coords r2.coords).2.2.2.mpr
          (by rw [show Direction3D.left.opposite = Direction3D.right from rfl] at hop
              rw [hop]; exact hcm1)
      · exact (mem_exitsFor coords r2.coords).2.2.1.mpr
          (by rw [show Direction3D.right.opposite = Direction3D.left from rfl] at hop
              rw [hop]; exact hcm1)

/-- Witness for the amended C6 theorem at floor size 3 with draws `[0, 0]`. -/
theorem c6_amended_witness :
    createFloorLayout 3 0 [0, 0] { row := 0, col := 0 } 5 = some (c6Out.1, c6Out.2) ∧
    (c6Out.1.rooms.length = max 1 3 ∧
    (c6Out.1.rooms.map (fun r => r.coords)).Nodup ∧
    RoomCoordinates.fromPosition { row := 0, col := 0 } ∈
      c6Out.1.rooms.map (fun r => r.coords) ∧
    (∀ room ∈ c6Out.1.rooms, ∀ d ∈ [Direction3D.top, .bottom, .left, .right],
      (d ∈ room.exits ↔ stepCoord d room.coords ∈ c6Out.1.rooms.map (fun r => r.coords))) ∧
    (∀ r1 ∈ c6Out.1.rooms, ∀ r2 ∈ c6Out.1.rooms, ∀ d ∈ [Direction3D.top, .bottom, .left, .right],
      d ∈ r1.exits → r2.coords = stepCoord d r1.coords → d.opposite ∈ r2.exits)) :=
  ⟨by decide, c6_amended 3 0 [0, 0] { row := 0, col := 0 } 5 c6Out.1 c6Out.2 (by decide)⟩

/-! ## Dungeon-architecture lemmas (C2) -/

theorem createFloorLayout_floor (floorSize : Nat) (floorNumber : Int) (rng : Rng)
    (start : Position) (fuel : Nat) (fl : FloorLayout) (rng' : Rng)
    (h : createFloorLayout floorSize floorNumber rng start fuel = some (fl, rng')) :
    fl.floor = floorNumber := by
  unfold createFloorLayout at h
  cases hrl : randomizedLayout floorSize rng start fuel with
  | none => rw [hrl] at h; exact Option.noConfusion h
  | some pr =>
    rw [hrl] at h
    dsimp only at h
    cases h
    rfl

theorem layoutFloor_spec (cfg : DungeonLayoutConfig) (rng : Rng) (layout : DungeonLayout)
    (sr : Position) (floor : Int) (fuel : Nat) (layout2 : DungeonLayout) (rng2 : Rng)
    (h : layoutFloor cfg rng layout sr floor fuel = some (layout2, rng2)) :
    (∃ F : FloorLayout, F.floor = floor ∧ layout2.floors = layout.floors ++ [F]) ∧
    layout2.stairs = layout.stairs := by
  unfold layoutFloor at h
  rcases hgr : genRange cfg.floorSize.1 cfg.floorSize.2 rng with ⟨fs, rng1⟩
  rw [hgr] at h
  dsimp only at h
  cases hcf : createFloorLayout fs floor rng1 sr fuel with
  | none => rw [hcf] at h; exact Option.noConfusion h
  | some pr =>
    obtain ⟨fl, rngf⟩ := pr
    rw [hcf] at h
    dsimp only at h
    cases h
    exact ⟨⟨fl, createFloorLayout_floor _ _ _ _ _ _ _ hcf, rfl⟩, rfl⟩

theorem setStairsLayout_stairs (l : DungeonLayout) :
    (setStairsLayout l).stairs = l.stairs := rfl

theorem setStairsLayout_filter_floors (l : DungeonLayout) :
    ((setStairsLayout l).floors.filter (fun f => decide (0 < f.floor))).length =
      (l.floors.filter (fun f => decide (0 < f.floor))).length := by
  unfold setStairsLayout
  dsimp only
  rw [List.filter_map]
  rw [List.length_map]
  congr 1



theorem foldl_layoutFloorsStep_none (cfg : DungeonLayoutConfig) (neg : Bool) (fuel : Nat)
    (ks : List Nat) :
    List.foldl (layoutFloorsStep cfg neg fuel) Option.none ks = Option.none := by
  induction ks with
  | nil => rfl
  | cons k ks ih => simpa [layoutFloorsStep] using ih

theorem layoutFoldAbove (cfg : DungeonLayoutConfig) (fuel : Nat) :
    ∀ (n j : Nat) (layout : DungeonLayout) (sr : Position) (rng : Rng)
      (out : DungeonLayout × Position × Int × Rng),
      List.foldl (layoutFloorsStep cfg false fuel) (some (layout, sr, (j : Int), rng))
        (List.range' (j + 1) n) = some out →
      (∃ Fs : List FloorLayout, out.1.floors = layout.floors ++ Fs ∧
        Fs.map (fun f => f.floor) = (List.range' (j + 1) n).map (fun k : Nat => (k : Int))) ∧
      (∃ ss : List StairCoordinates, out.1.stairs = layout.stairs ++ ss ∧ ss.length = n ∧
        ∀ i, (hi : i < ss.length) →
          (ss.get ⟨i, hi⟩).lowerFloor.floor = (j : Int) + i ∧
          (ss.get ⟨i, hi⟩).upperFloor.floor = (j : Int) + i + 1) := by
  intro n
  induction n with
  | zero =>
    intro j layout sr rng out h
    simp only [List.range'] at h
    simp only [List.foldl_nil] at h
    cases h
    refine ⟨⟨[], by simp, by simp⟩, ⟨[], by simp, rfl, ?_⟩⟩
    intro i hi
    simp at hi
  | succ n ih =>
    intro j layout sr rng out h
    rw [List.range'_succ, List.foldl_cons] at h
    simp only [layoutFloorsStep] at h
    rw [if_neg (by simp)] at h
    set layout1 := { layout with
      stairs := layout.stairs ++
        [StairCoordinates.fromCoords sr.row sr.col (j : Int) ((j + 1 : Nat) : Int)] } with hlay1
    cases hlf : layoutFloor cfg rng layout1 sr ((j + 1 : Nat) : Int) fuel with
    | none =>
      rw [hlf] at h
      rw [foldl_layoutFloorsStep_none] at h
      exact Option.noConfusion h
    | some pr =>
      obtain ⟨layout2, rng2⟩ := pr
      rw [hlf] at h
      dsimp only at h
      cases hfd : findDistancedRoomOnFloor layout2
          { floor := ((j + 1 : Nat) : Int), col := sr.col, row := sr.row } with
      | none =>
        rw [hfd] at h
        rw [foldl_layoutFloorsStep_none] at h
        exact Option.noConfusion h
      | some dr =>
        rw [hfd] at h
        dsimp only at h
        obtain ⟨⟨Fs', hF1, hF2⟩, ⟨ss', hs1, hs2, hs3⟩⟩ :=
          ih (j + 1) layout2 { row := dr.row, col := dr.col } rng2 out h
        obtain ⟨⟨F, hFfl, hFeq⟩, hsteq⟩ := layoutFloor_spec cfg rng layout1 sr _ fuel
          layout2 rng2 hlf
        have hl1f : layout1.floors = layout.floors := by rw [hlay1]
        have hl1s : layout1.stairs = layout.stairs ++
            [StairCoordinates.fromCoords sr.row sr.col (j : Int) ((j + 1 : Nat) : Int)] := by
          rw [hlay1]
        constructor
        · refine ⟨F :: Fs', ?_, ?_⟩
          · rw [hF1, hFeq, hl1f]
            simp
          · rw [List.range'_succ]
            simp [hFfl, hF2]
        · refine ⟨StairCoordinates.fromCoords sr.row sr.col (j : Int) ((j + 1 : Nat) : Int)
            :: ss', ?_, by simp [hs2], ?_⟩
          · rw [hs1, hsteq, hl1s]
            simp
          · intro i hi
            have hle : (j : Int) ≤ ((j + 1 : Nat) : Int) := by push_cast; omega
            cases i with
            | zero =>
              constructor
              · show (StairCoordinates.fromCoords sr.row sr.col (j : Int)
                  ((j + 1 : Nat) : Int)).lowerFloor.floor = (j : Int) + ((0 : Nat) : Int)
                unfold StairCoordinates.fromCoords
                dsimp only
                rw [min_eq_left hle]
                push_cast
                ring
              · show (StairCoordinates.fromCoords sr.row sr.col (j : Int)
                  ((j + 1 : Nat) : Int)).upperFloor.floor = (j : Int) + ((0 : Nat) : Int) + 1
                unfold StairCoordinates.fromCoords
                dsimp only
                rw [max_eq_right hle]
                push_cast
                ring
            | succ i =>
              have hi' : i < ss'.length := by
                simp at hi
                omega
              obtain ⟨hlo, hup⟩ := hs3 i hi'
              constructor
              · show (ss'.get ⟨i, hi'⟩).lowerFloor.floor = (j : Int) + ((i + 1 : Nat) : Int)
                rw [hlo]
                push_cast
                ring
              · show (ss'.get ⟨i, hi'⟩).upperFloor.floor = (j : Int) + ((i + 1 : Nat) : Int) + 1
                rw [hup]
                push_cast
                ring



theorem layoutFoldBelow (cfg : DungeonLayoutConfig) (fuel : Nat) :
    ∀ (ks : List Nat) (layout : DungeonLayout) (sr : Position) (fb : Int) (rng : Rng)
      (out : DungeonLayout × Position × Int × Rng),
      (∀ k ∈ ks, 0 < k) → fb ≤ 0 →
      List.foldl (layoutFloorsStep cfg true fuel) (some (layout, sr, fb, rng)) ks = some out →
      (∃ Fs : List FloorLayout, out.1.floors = layout.floors ++ Fs ∧ ∀ F ∈ Fs, F.floor < 0) ∧
      (∃ ss : List StairCoordinates, out.1.stairs = layout.stairs ++ ss ∧
        ∀ s ∈ ss, s.lowerFloor.floor < 0) := by
  intro ks
  induction ks with
  | nil =>
    intro layout sr fb rng out hks hfb h
    simp only [List.foldl_nil] at h
    cases h
    exact ⟨⟨[], by simp, by simp⟩, ⟨[], by simp, by simp⟩⟩
  | cons k ks ih =>
    intro layout sr fb rng out hks hfb h
    rw [List.foldl_cons] at h
    simp only [layoutFloorsStep] at h
    simp only [if_true] at h
    set st := StairCoordinates.fromCoords sr.row sr.col fb (-(k : Int)) with hst
    set layout1 := { layout with stairs := layout.stairs ++ [st] } with hlay1
    cases hlf : layoutFloor cfg rng layout1 sr (-(k : Int)) fuel with
    | none =>
      rw [hlf] at h
      rw [foldl_layoutFloorsStep_none] at h
      exact Option.noConfusion h
    | some pr =>
      obtain ⟨layout2, rng2⟩ := pr
      rw [hlf] at h
      dsimp only at h
      cases hfd : findDistancedRoomOnFloor layout2
          { floor := -(k : Int), col := sr.col, row := sr.row } with
      | none =>
        rw [hfd] at h
        rw [foldl_layoutFloorsStep_none] at h
        exact Option.noConfusion h
      | some dr =>
        rw [hfd] at h
        dsimp only at h
        have hk : 0 < k := hks k (by simp)
        have hneg : -(k : Int) ≤ 0 := by omega
        obtain ⟨⟨Fs', hF1, hF2⟩, ⟨ss', hs1, hs2⟩⟩ :=
          ih layout2 { row := dr.row, col := dr.col } (-(k : Int)) rng2 out
            (fun x hx => hks x (List.mem_cons_of_mem _ hx)) hneg h
        obtain ⟨⟨F, hFfl, hFeq⟩, hsteq⟩ := layoutFloor_spec cfg rng layout1 sr _ fuel
          layout2 rng2 hlf
        constructor
        · refine ⟨F :: Fs', ?_, ?_⟩
          · rw [hF1, hFeq]
            simp [hlay1]
          · intro G hG
            rcases List.mem_cons.mp hG with hG | hG
            · subst hG
              rw [hFfl]
              omega
            · exact hF2 G hG
        · refine ⟨st :: ss', ?_, ?_⟩
          · rw [hs1, hsteq]
            simp [hlay1]
          · intro s hs
            rcases List.mem_cons.mp hs with hs | hs
            · subst hs
              rw [hst]
              unfold StairCoordinates.fromCoords
              dsimp only
              have : min fb (-(k : Int)) ≤ -(k : Int) := min_le_right _ _
              omega
            · exact hs2 s hs



/-- C2 amended: for every configuration and RNG state, when the sampled
`floors_above` value is N > 0 and `create_dungeon_layout` returns, the
layout contains exactly N+1 floors with positive floor index and exactly
N+1 stair links whose endpoints both have non-negative floor index, one
per k = 1..N+1 linking floor k-1 to floor k (the loop range is
`1..floors_above + 2`). -/
theorem c2_amended (cfg : DungeonLayoutConfig) (rng : Rng) (fuel : Nat) (N : Nat)
    (layout : DungeonLayout) (rng' : Rng)
    (hN : (genRange cfg.floorsAbove.1 cfg.floorsAbove.2 rng).1 = N)
    (hpos : 0 < N)
    (hgen : createDungeonLayout cfg rng fuel = some (layout, rng')) :
    (layout.floors.filter (fun f => decide (0 < f.floor))).length = N + 1 ∧
    (layout.stairs.filter
      (fun s => decide (0 ≤ s.lowerFloor.floor) && decide (0 ≤ s.upperFloor.floor))).length
      = N + 1 ∧
    (∀ k : Nat, 1 ≤ k → k ≤ N + 1 →
      ∃ s ∈ layout.stairs, s.lowerFloor.floor = (k : Int) - 1 ∧
        s.upperFloor.floor = (k : Int)) := by
  unfold createDungeonLayout at hgen
  rcases hga : genRange cfg.floorsAbove.1 cfg.floorsAbove.2 rng with ⟨Na, rng1⟩
  rw [hga] at hgen hN
  dsimp only at hgen hN
  subst hN
  rcases hgb : genRange cfg.floorsBelow.1 cfg.floorsBelow.2 rng1 with ⟨M, rng2⟩
  rw [hgb] at hgen
  dsimp only at hgen
  cases hlf0 : layoutFloor cfg rng2 DungeonLayout.default { row := 0, col := 0 } 0 fuel with
  | none => rw [hlf0] at hgen; exact Option.noConfusion hgen
  | some pr0 =>
  obtain ⟨lay0, rng3⟩ := pr0
  rw [hlf0] at hgen
  dsimp only at hgen
  cases hhd : lay0.coords.head? with
  | none => rw [hhd] at hgen; exact Option.noConfusion hgen
  | some first =>
  rw [hhd] at hgen
  dsimp only at hgen
  cases hfd0 : findDistancedRoomOnFloor
      { coords := lay0.coords, floors := lay0.floors, stairs := lay0.stairs, firstRoom := first,
        lastRoom := lay0.lastRoom } first with
  | none => rw [hfd0] at hgen; exact Option.noConfusion hgen
  | some stairRoom =>
  rw [hfd0] at hgen
  dsimp only at hgen
  rw [if_pos hpos] at hgen
  cases hlfsA : layoutFloors cfg rng3
      { coords := lay0.coords, floors := lay0.floors, stairs := lay0.stairs, firstRoom := first,
        lastRoom := lay0.lastRoom }
      { row := stairRoom.row, col := stairRoom.col } (List.range' 1 (Na + 1)) false fuel with
  | none => rw [hlfsA] at hgen; exact Option.noConfusion hgen
  | some prA =>
  obtain ⟨layA, rngA⟩ := prA
  rw [hlfsA] at hgen
  dsimp only at hgen
  -- ground-floor facts
  obtain ⟨⟨F0, hF0fl, hF0eq⟩, hst0⟩ :=
    layoutFloor_spec cfg rng2 DungeonLayout.default { row := 0, col := 0 } 0 fuel lay0 rng3 hlf0
  have hlay0f : lay0.floors = [F0] := by simpa [DungeonLayout.default] using hF0eq
  have hlay0s : lay0.stairs = [] := by simpa [DungeonLayout.default] using hst0
  -- decompose the above stage
  unfold layoutFloors at hlfsA
  cases hfoldA : List.foldl (layoutFloorsStep cfg false fuel)
      (some (({ coords := lay0.coords, floors := lay0.floors, stairs := lay0.stairs,
                firstRoom := first, lastRoom := lay0.lastRoom } : DungeonLayout),
        ({ row := stairRoom.row, col := stairRoom.col } : Position), (0 : Int), rng3))
      (List.range' 1 (Na + 1)) with
  | none => rw [hfoldA] at hlfsA; exact Option.noConfusion hlfsA
  | some outA =>
  obtain ⟨la, pa, fba, ra⟩ := outA
  rw [hfoldA] at hlfsA
  dsimp only at hlfsA
  cases hlfsA
  obtain ⟨⟨Fs, hFs1, hFs2⟩, ⟨ss, hss1, hss2, hss3⟩⟩ :=
    layoutFoldAbove cfg fuel (Na + 1) 0
      { coords := lay0.coords, floors := lay0.floors, stairs := lay0.stairs,
        firstRoom := first, lastRoom := lay0.lastRoom }
      { row := stairRoom.row, col := stairRoom.col } rng3 (la, pa, fba, rngA)
      (by rw [Nat.cast_zero]; exact hfoldA)
  dsimp only at hFs1 hss1
  -- facts about the above-stage floors and stairs
  have hFsall : ∀ F ∈ Fs, (0 : Int) < F.floor := by
    intro F hF
    have hmm : F.floor ∈ Fs.map (fun f => f.floor) := List.mem_map_of_mem _ hF
    rw [hFs2] at hmm
    obtain ⟨k, hk, hkeq⟩ := List.mem_map.mp hmm
    have hk1 : 1 ≤ k ∧ k < 1 + (Na + 1) := List.mem_range'_1.mp hk
    omega
  have hFslen : Fs.length = Na + 1 := by
    have hlen := congrArg List.length hFs2
    rw [List.length_map, List.length_map, List.length_range'] at hlen
    exact hlen
  have hss_nonneg : ∀ s ∈ ss, 0 ≤ s.lowerFloor.floor ∧ 0 ≤ s.upperFloor.floor := by
    intro s hs
    obtain ⟨i, hieq⟩ := List.mem_iff_get.mp hs
    obtain ⟨hlo, hup⟩ := hss3 i.1 i.2
    have hieq2 : ss.get ⟨i.1, i.2⟩ = s := by
      rw [← hieq]
    rw [hieq2] at hlo hup
    constructor <;> omega
  have hcountA : (((setStairsLayout la).floors.filter (fun f => decide (0 < f.floor))).length)
      = Na + 1 := by
    rw [setStairsLayout_filter_floors, hFs1, hlay0f, List.filter_append, List.length_append]
    have h1 : ([F0].filter (fun f => decide (0 < f.floor))) = [] := by
      simp [hF0fl]
    have h2 : (Fs.filter (fun f => decide (0 < f.floor))) = Fs := by
      rw [List.filter_eq_self]
      intro F hF
      simpa using hFsall F hF
    rw [h1, h2, hFslen]
    simp
  have hstairsA : (setStairsLayout la).stairs = ss := by
    rw [setStairsLayout_stairs, hss1, hlay0s]
    simp
  have hfilterss : (ss.filter
      (fun s => decide (0 ≤ s.lowerFloor.floor) && decide (0 ≤ s.upperFloor.floor))) = ss := by
    rw [List.filter_eq_self]
    intro s hs
    obtain ⟨hl, hu⟩ := hss_nonneg s hs
    simp [hl, hu]
  have hexk : ∀ k : Nat, 1 ≤ k → k ≤ Na + 1 →
      ∃ s ∈ ss, s.lowerFloor.floor = (k : Int) - 1 ∧ s.upperFloor.floor = (k : Int) := by
    intro k hk1 hk2
    have hklt : k - 1 < ss.length := by omega
    obtain ⟨hlo, hup⟩ := hss3 (k - 1) hklt
    refine ⟨ss.get ⟨k - 1, hklt⟩, List.get_mem ss (k - 1) hklt, ?_, ?_⟩
    · rw [hlo]
      push_cast [Nat.cast_sub hk1]
      ring
    · rw [hup]
      push_cast [Nat.cast_sub hk1]
      ring
  by_cases hM : 0 < M
  case pos =>
    rw [if_pos hM] at hgen
    cases hlfsB : layoutFloors cfg rngA (setStairsLayout la)
        { row := stairRoom.row, col := stairRoom.col } (List.range' 1 (M + 1)) true fuel with
    | none => rw [hlfsB] at hgen; exact Option.noConfusion hgen
    | some prB =>
    obtain ⟨layB, rngB⟩ := prB
    rw [hlfsB] at hgen
    dsimp only at hgen
    cases hfdd : findDistancedRoomInDungeon layB { floor := 0, col := 0, row := 0 } with
    | none => rw [hfdd] at hgen; exact Option.noConfusion hgen
    | some lastR =>
    rw [hfdd] at hgen
    dsimp only at hgen
    cases hgen
    -- decompose the below stage
    unfold layoutFloors at hlfsB
    cases hfoldB : List.foldl (layoutFloorsStep cfg true fuel)
        (some ((setStairsLayout la),
          ({ row := stairRoom.row, col := stairRoom.col } : Position), (0 : Int), rngA))
        (List.range' 1 (M + 1)) with
    | none => rw [hfoldB] at hlfsB; exact Option.noConfusion hlfsB
    | some outB =>
    obtain ⟨lb, pb, fbb, rb⟩ := outB
    rw [hfoldB] at hlfsB
    dsimp only at hlfsB
    cases hlfsB
    obtain ⟨⟨Fs2, hFs21, hFs22⟩, ⟨ss2, hss21, hss22⟩⟩ :=
      layoutFoldBelow cfg fuel (List.range' 1 (M + 1)) (setStairsLayout la)
        { row := stairRoom.row, col := stairRoom.col } 0 rngA (lb, pb, fbb, rng')
        (fun k hk => by
          have := (List.mem_range'_1.mp hk).1
          omega)
        (le_refl 0) hfoldB
    dsimp only at hFs21 hss21
    refine ⟨?_, ?_, ?_⟩
    · show (((setStairsLayout lb).floors.filter (fun f => decide (0 < f.floor))).length) = Na + 1
      rw [setStairsLayout_filter_floors, hFs21, List.filter_append, List.length_append]
      have h2 : (Fs2.filter (fun f => decide (0 < f.floor))) = [] := by
        rw [List.filter_eq_nil]
        intro F hF
        have := hFs22 F hF
        simp
        omega
      rw [h2]
      simpa using hcountA
    · show (((setStairsLayout lb).stairs.filter
        (fun s => decide (0 ≤ s.lowerFloor.floor) && decide (0 ≤ s.upperFloor.floor))).length)
        = Na + 1
      rw [setStairsLayout_stairs, hss21, hstairsA, List.filter_append, List.length_append]
      have h2 : (ss2.filter
          (fun s => decide (0 ≤ s.lowerFloor.floor) && decide (0 ≤ s.upperFloor.floor))) = [] := by
        rw [List.filter_eq_nil]
        intro s hs
        have := hss22 s hs
        simp
        omega
      rw [hfilterss, h2, hss2]
      simp
    · intro k hk1 hk2
      obtain ⟨s, hsmem, hsl, hsu⟩ := hexk k hk1 hk2
      refine ⟨s, ?_, hsl, hsu⟩
      show s ∈ (setStairsLayout lb).stairs
      rw [setStairsLayout_stairs, hss21, hstairsA]
      exact List.mem_append_left _ hsmem
  case neg =>
    rw [if_neg hM] at hgen
    dsimp only at hgen
    cases hfdd : findDistancedRoomInDungeon (setStairsLayout la)
        { floor := 0, col := 0, row := 0 } with
    | none => rw [hfdd] at hgen; exact Option.noConfusion hgen
    | some lastR =>
    rw [hfdd] at hgen
    dsimp only at hgen
    cases hgen
    refine ⟨?_, ?_, ?_⟩
    · exact hcountA
    · show (((setStairsLayout la).stairs.filter
        (fun s => decide (0 ≤ s.lowerFloor.floor) && decide (0 ≤ s.upperFloor.floor))).length)
        = Na + 1
      rw [hstairsA, hfilterss, hss2]
    · intro k hk1 hk2
      obtain ⟨s, hsmem, hsl, hsu⟩ := hexk k hk1 hk2
      refine ⟨s, ?_, hsl, hsu⟩
      show s ∈ (setStairsLayout la).stairs
      rw [hstairsA]
      exact hsmem

/-- Witness for the amended C2 theorem on the concrete configuration whose
sampled `floors_above` is 1. -/
theorem c2_amended_witness :
    (genRange c2Cfg.floorsAbove.1 c2Cfg.floorsAbove.2 []).1 = 1 ∧ 0 < 1 ∧
    createDungeonLayout c2Cfg [] 10 = some (c2Out.1, c2Out.2) ∧
    ((c2Out.1.floors.filter (fun f => decide (0 < f.floor))).length = 1 + 1 ∧
    (c2Out.1.stairs.filter
      (fun s => decide (0 ≤ s.lowerFloor.floor) && decide (0 ≤ s.upperFloor.floor))).length
      = 1 + 1 ∧
    (∀ k : Nat, 1 ≤ k → k ≤ 1 + 1 →
      ∃ s ∈ c2Out.1.stairs, s.lowerFloor.floor = (k : Int) - 1 ∧
        s.upperFloor.floor = (k : Int))) :=
  ⟨by decide, by decide, by decide,
    c2_amended c2Cfg [] 10 1 c2Out.1 c2Out.2 (by decide) (by decide) (by decide)⟩

/-- C7: for every dungeon layout with at least one room on the given
floor, `find_distanced_room_on_floor` returns a coordinate on that floor
whose Manhattan distance from the origin is maximal among the floor's
coordinates, and when several coordinates attain the maximum it returns
the last one in the iteration order of the layout's coordinate list
(every strictly later entry of the filtered list has strictly smaller
distance). -/
theorem c7_farthest (layout : DungeonLayout) (from_ : DungeonCoordinates)
    (hne : ∃ c ∈ layout.coords, c.floor = from_.floor) :
    ∃ res, findDistancedRoomOnFloor layout from_ = some res ∧
      res ∈ layout.coords ∧ res.floor = from_.floor ∧
      (∀ c ∈ layout.coords, c.floor = from_.floor → floorDist from_ c ≤ floorDist from_ res) ∧
      ∃ i, ∃ hi : i < (layout.coords.filter (fun c => c.floor = from_.floor)).length,
        (layout.coords.filter (fun c => c.floor = from_.floor))[i] = res ∧
        ∀ j, (hj : j < (layout.coords.filter (fun c => c.floor = from_.floor)).length) →
          i < j →
          floorDist from_ ((layout.coords.filter (fun c => c.floor = from_.floor))[j]) <
            floorDist from_ res := by
  set fl := layout.coords.filter (fun c => c.floor = from_.floor) with hfl
  have hflne : fl ≠ [] := by
    obtain ⟨c, hc, hcf⟩ := hne
    intro h0
    have hm : c ∈ fl := by rw [hfl]; exact List.mem_filter.mpr ⟨hc, by simpa using hcf⟩
    rw [h0] at hm; simp at hm
  cases hr : maxByKeyLast (floorDist from_) fl with
  | none => exact absurd (maxByKeyLast_eq_none _ _ hr) hflne
  | some res =>
    obtain ⟨hmem, hbound, i, hi, hget, hlast⟩ := maxByKeyLast_spec _ _ _ hr
    have hresmem := List.mem_filter.mp hmem
    refine ⟨res, ?_, hresmem.1, by simpa using hresmem.2, ?_, i, hi, hget, hlast⟩
    · unfold findDistancedRoomOnFloor
      exact hr
    · intro c hc hcf
      exact hbound c (List.mem_filter.mpr ⟨hc, by simpa using hcf⟩)

/-- Witness for C7 on a concrete three-room floor with a distance tie:
the returned room is the later of the two maximal coordinates. -/
theorem c7_farthest_witness :
    (∃ c ∈ c7Layout.coords, c.floor = (DungeonCoordinates.mk 0 0 0).floor) ∧
    (∃ res, findDistancedRoomOnFloor c7Layout (DungeonCoordinates.mk 0 0 0) = some res ∧
      res ∈ c7Layout.coords ∧ res.floor = (DungeonCoordinates.mk 0 0 0).floor ∧
      (∀ c ∈ c7Layout.coords, c.floor = (DungeonCoordinates.mk 0 0 0).floor →
        floorDist (DungeonCoordinates.mk 0 0 0) c ≤ floorDist (DungeonCoordinates.mk 0 0 0) res) ∧
      ∃ i, ∃ hi : i <
          (c7Layout.coords.filter (fun c => c.floor = (DungeonCoordinates.mk 0 0 0).floor)).length,
        (c7Layout.coords.filter (fun c => c.floor = (DungeonCoordinates.mk 0 0 0).floor))[i] = res ∧
        ∀ j, (hj : j <
            (c7Layout.coords.filter
              (fun c => c.floor = (DungeonCoordinates.mk 0 0 0).floor)).length) →
          i < j →
          floorDist (DungeonCoordinates.mk 0 0 0)
              ((c7Layout.coords.filter
                (fun c => c.floor = (DungeonCoordinates.mk 0 0 0).floor))[j]) <
            floorDist (DungeonCoordinates.mk 0 0 0) res) :=
  ⟨by decide, c7_farthest c7Layout (DungeonCoordinates.mk 0 0 0) (by decide)⟩

/-- The drunkard walk loop, started at non-negative coordinates, never
reaches the negative-coordinates panic branch: whenever a step makes a
coordinate negative the loop breaks before re-entering the check. -/
theorem drunkardGo_isSome (dug : DungeonTile) :
    ∀ (k : Nat) (room : DungeonRoom) (pos : Int × Int) (rng : Rng),
      0 ≤ pos.1 → 0 ≤ pos.2 → (drunkardGo dug room pos rng k).isSome = true := by
  intro k
  induction k with
  | zero =>
    intro room pos rng h1 h2
    unfold drunkardGo
    rw [if_neg (by omega)]
    dsimp only
    split
    · simp
    · split
      · simp
      · simp
  | succ k ih =>
    intro room pos rng h1 h2
    unfold drunkardGo
    rw [if_neg (by omega)]
    dsimp only
    split
    · simp
    · split
      · simp
      · rename_i hneg _
        push_neg at hneg
        exact ih _ _ _ hneg.1 hneg.2

/-- C8: for every builder, every room, every start point inside the room
(start coordinates are unsigned, hence non-negative) and every RNG state,
`DrunkardRoomBuilder::drunkard` is total and never reaches its
"dunkard has negative coordinates" panic branch. -/
theorem c8_no_panic (b : DrunkardRoomBuilder) (room : DungeonRoom) (start : Nat × Nat)
    (rng : Rng) (h1 : start.1 < room.rows) (h2 : start.2 < room.columns) :
    (b.drunkard start rng room).isSome = true := by
  unfold DrunkardRoomBuilder.drunkard
  exact drunkardGo_isSome _ _ _ _ _ (Int.natCast_nonneg _) (Int.natCast_nonneg _)

/-- Witness for C8 at a concrete 3×3 room and start point (1,1). -/
theorem c8_no_panic_witness :
    (1 < c8Room.rows) ∧ (1 < c8Room.columns) ∧
    ((DrunkardRoomBuilder.mk 3 3 1 1 .findExits).drunkard (1, 1) [] c8Room).isSome = true :=
  ⟨by decide, by decide,
    c8_no_panic (DrunkardRoomBuilder.mk 3 3 1 1 .findExits) c8Room (1, 1) []
      (by decide) (by decide)⟩

/-! ## Stair-stamping frame lemmas (C3, C9) -/

theorem getD_set_self {α : Type} (l : List α) (p : Nat) (a d : α) (hp : p < l.length) :
    (l.set p a).getD p d = a := by
  simp [List.getD_eq_getElem?_getD, List.getElem?_set_eq_of_lt a hp]

theorem getD_set_ne {α : Type} (l : List α) (p i : Nat) (a d : α) (h : i ≠ p) :
    (l.set p a).getD i d = l.getD i d := by
  simp [List.getD_eq_getElem?_getD, List.getElem?_set_ne (fun he => h he.symm)]

theorem findTargetTile_floor (tiles : List DungeonTile) (l : List Nat) :
    findTargetTile tiles l = -1 ∨
    (0 ≤ findTargetTile tiles l ∧
      tiles.getD (findTargetTile tiles l).toNat .wall = .floor) := by
  induction l with
  | nil => exact Or.inl rfl
  | cons p rest ih =>
    unfold findTargetTile
    split
    · right
      rename_i hfl
      simpa using hfl
    · exact ih

theorem setStairs_tiles (room : ArrangedDungeonRoom) (stair : DungeonTile) (target : Nat) :
    (setStairs room stair target).tiles = room.tiles ∨
    ∃ p : Nat, 0 < p ∧ room.tiles.getD p .wall = .floor ∧
      (setStairs room stair target).tiles = room.tiles.set p stair := by
  unfold setStairs
  dsimp only
  rcases findTargetTile_floor room.tiles (stepTwo (room.pathing.drop target)) with h | ⟨h0, hfl⟩
  · rw [h]
    simp
  · split
    · rename_i hpos
      right
      refine ⟨(findTargetTile room.tiles (stepTwo (room.pathing.drop target))).toNat, ?_, hfl, rfl⟩
      omega
    · left; rfl

theorem setStairs_pathing (room : ArrangedDungeonRoom) (stair : DungeonTile) (target : Nat) :
    (setStairs room stair target).pathing = room.pathing ∧
    (setStairs room stair target).stairUp = room.stairUp ∧
    (setStairs room stair target).stairDown = room.stairDown := by
  unfold setStairs
  dsimp only
  split <;> exact ⟨rfl, rfl, rfl⟩

theorem setStairs_frame (room : ArrangedDungeonRoom) (stair : DungeonTile) (target : Nat) :
    ∃ p : Nat, ∀ i,
      (setStairs room stair target).tiles.getD i .wall ≠ room.tiles.getD i .wall →
      i = p ∧ room.tiles.getD i .wall = .floor ∧
        (setStairs room stair target).tiles.getD i .wall = stair := by
  rcases setStairs_tiles room stair target with h | ⟨p, hp, hfl, hset⟩
  · exact ⟨0, fun i hi => absurd (by rw [h]) hi⟩
  · refine ⟨p, fun i hi => ?_⟩
    by_cases hip : i = p
    · subst hip
      have hlen : i < room.tiles.length := by
        by_contra hge
        have hwall : room.tiles.getD i .wall = .wall := by
          rw [List.getD_eq_getElem?_getD, List.getElem?_eq_none (by omega)]
          rfl
        rw [hwall] at hfl
        exact DungeonTile.noConfusion hfl
      exact ⟨rfl, hfl, by rw [hset, getD_set_self _ _ _ _ hlen]⟩
    · exfalso
      rw [hset, getD_set_ne _ _ _ _ _ hip] at hi
      exact hi rfl

theorem setAllStairs_eq (room : ArrangedDungeonRoom) :
    setAllStairs room =
      (let L := room.pathing.length / 3
       let room1 := if room.stairDown then setStairs room .stairsDown L else room
       let t1 := if room.stairDown then L * 2 else L
       if room.stairUp then setStairs room1 .stairsUp t1 else room1) := by
  unfold setAllStairs
  dsimp only
  by_cases hd : room.stairDown
  · rw [if_pos hd, if_pos hd, if_pos hd]
    dsimp only
    rw [(setStairs_pathing room .stairsDown (room.pathing.length / 3)).2.1]
  · rw [if_neg hd, if_neg hd, if_neg hd]

theorem findTargetTile_eq_find (tiles : List DungeonTile) (l : List Nat) :
    findTargetTile tiles l =
      match l.find? (fun p => decide (tiles.getD p .wall = .floor)) with
      | some p => (p : Int)
      | Option.none => -1 := by
  induction l with
  | nil => rfl
  | cons p rest ih =>
    unfold findTargetTile
    rw [List.find?_cons]
    by_cases h : tiles.getD p .wall = .floor
    · rw [if_pos h, decide_eq_true h]
    · rw [if_neg h, decide_eq_false h]
      exact ih

theorem setStairs_eq_scan (room : ArrangedDungeonRoom) (stair : DungeonTile) (target : Nat) :
    setStairs room stair target =
      match scanFirstFloor room.tiles room.pathing target with
      | some p => if 0 < p then { room with tiles := room.tiles.set p stair } else room
      | Option.none => room := by
  unfold setStairs scanFirstFloor
  dsimp only
  rw [findTargetTile_eq_find]
  cases hf : (stepTwo (room.pathing.drop target)).find?
      (fun p => decide (room.tiles.getD p .wall = .floor)) with
  | none => simp
  | some p =>
    dsimp only
    by_cases hp : 0 < p
    · rw [if_pos (by exact_mod_cast hp), if_pos hp]
      simp
    · rw [if_neg (by omega), if_neg hp]

/-- C3 amended: `set_all_stairs` behaves exactly as the corrected scan
description `stairPlacementSpec`: StairsDown is placed at the first plain
Floor tile among every second pathing entry from offset len/3 provided its
index is strictly positive; the StairsUp scan starts at 2·(len/3) when
`stair_down` is also set and at len/3 otherwise, over the tiles already
updated by the down placement, with the same positive-index guard; a
stair is omitted iff its scan finds no plain Floor tile at a positive
index. -/
theorem c3_amended (room : ArrangedDungeonRoom) :
    setAllStairs room = stairPlacementSpec room := by
  rw [setAllStairs_eq]
  unfold stairPlacementSpec
  dsimp only
  by_cases hd : room.stairDown = true
  · rw [if_pos hd, if_pos hd, if_pos hd, if_pos hd]
    by_cases hu : room.stairUp = true
    · rw [if_pos hu, if_pos hu]
      rw [← setStairs_eq_scan room .stairsDown (room.pathing.length / 3)]
      rw [setStairs_eq_scan (setStairs room .stairsDown (room.pathing.length / 3)) .stairsUp
        (room.pathing.length / 3 * 2)]
      rw [(setStairs_pathing room .stairsDown (room.pathing.length / 3)).1]
      rw [Nat.mul_comm (room.pathing.length / 3) 2]
    · rw [if_neg hu, if_neg hu]
      exact setStairs_eq_scan room .stairsDown (room.pathing.length / 3)
  · rw [if_neg hd, if_neg hd, if_neg hd, if_neg hd]
    by_cases hu : room.stairUp = true
    · rw [if_pos hu, if_pos hu]
      exact setStairs_eq_scan room .stairsUp (room.pathing.length / 3)
    · rw [if_neg hu, if_neg hu]

/-- C9: stair placement only rewrites tiles that are currently plain
Floor — every tile that was Exit, Wall, StairsUp or StairsDown beforehand
keeps its value after `set_all_stairs` — and at most one tile changes per
set stair flag (hence at most two in total). -/
theorem c9_frame (room : ArrangedDungeonRoom) :
    (∀ i, room.tiles.getD i .wall ≠ .floor →
      (setAllStairs room).tiles.getD i .wall = room.tiles.getD i .wall) ∧
    ((Finset.range room.tiles.length).filter
        (fun i => (setAllStairs room).tiles.getD i .wall ≠ room.tiles.getD i .wall)).card ≤
      (if room.stairDown then 1 else 0) + (if room.stairUp then 1 else 0) := by
  rw [setAllStairs_eq room]
  dsimp only
  set L := room.pathing.length / 3 with hL
  set room1 := if room.stairDown then setStairs room .stairsDown L else room with hroom1
  set t1 := if room.stairDown then L * 2 else L with ht1
  set room2 := if room.stairUp then setStairs room1 .stairsUp t1 else room1 with hroom2
  obtain ⟨p, hp⟩ : ∃ p : Nat, ∀ i,
      room1.tiles.getD i .wall ≠ room.tiles.getD i .wall →
      i = p ∧ room.tiles.getD i .wall = .floor ∧ room1.tiles.getD i .wall = .stairsDown := by
    rw [hroom1]
    by_cases hd : room.stairDown
    · rw [if_pos hd]
      exact setStairs_frame room .stairsDown L
    · rw [if_neg hd]
      exact ⟨0, fun i hi => absurd rfl hi⟩
  obtain ⟨q, hq⟩ : ∃ q : Nat, ∀ i,
      room2.tiles.getD i .wall ≠ room1.tiles.getD i .wall →
      i = q ∧ room1.tiles.getD i .wall = .floor ∧ room2.tiles.getD i .wall = .stairsUp := by
    rw [hroom2]
    by_cases hu : room.stairUp
    · rw [if_pos hu]
      exact setStairs_frame room1 .stairsUp t1
    · rw [if_neg hu]
      exact ⟨0, fun i hi => absurd rfl hi⟩
  constructor
  · intro i hifl
    by_cases h1 : room1.tiles.getD i .wall = room.tiles.getD i .wall
    · by_cases h2 : room2.tiles.getD i .wall = room1.tiles.getD i .wall
      · rw [h2, h1]
      · exact absurd (h1 ▸ (hq i h2).2.1) hifl
    · exact absurd (hp i h1).2.1 hifl
  · have hsub : ∀ i, room2.tiles.getD i .wall ≠ room.tiles.getD i .wall → i = p ∨ i = q := by
      intro i hi
      by_cases h1 : room1.tiles.getD i .wall = room.tiles.getD i .wall
      · by_cases h2 : room2.tiles.getD i .wall = room1.tiles.getD i .wall
        · exact absurd (h2.trans h1) hi
        · exact Or.inr (hq i h2).1
      · exact Or.inl (hp i h1).1
    by_cases hd : room.stairDown <;> by_cases hu : room.stairUp <;>
      simp only [hd, hu, if_true, if_false]
    · calc ((Finset.range room.tiles.length).filter
              (fun i => room2.tiles.getD i .wall ≠ room.tiles.getD i .wall)).card
          ≤ ({p, q} : Finset Nat).card := by
            apply Finset.card_le_card
            intro i hi
            rcases hsub i (Finset.mem_filter.mp hi).2 with h | h <;> simp [h]
        _ ≤ 2 := by
            apply le_trans (Finset.card_insert_le p {q})
            simp
    · have hr2 : room2 = room1 := by rw [hroom2, if_neg hu]
      calc ((Finset.range room.tiles.length).filter
              (fun i => room2.tiles.getD i .wall ≠ room.tiles.getD i .wall)).card
          ≤ ({p} : Finset Nat).card := by
            apply Finset.card_le_card
            intro i hi
            have hne := (Finset.mem_filter.mp hi).2
            rw [hr2] at hne
            simp [(hp i hne).1]
        _ ≤ 1 := by simp
    · have hr1 : room1 = room := by rw [hroom1, if_neg hd]
      calc ((Finset.range room.tiles.length).filter
              (fun i => room2.tiles.getD i .wall ≠ room.tiles.getD i .wall)).card
          ≤ ({q} : Finset Nat).card := by
            apply Finset.card_le_card
            intro i hi
            have hne := (Finset.mem_filter.mp hi).2
            have hne1 : room2.tiles.getD i .wall ≠ room1.tiles.getD i .wall := by
              rw [hr1]; exact hne
            simp [(hq i hne1).1]
        _ ≤ 1 := by simp
    · have hr2 : room2 = room1 := by rw [hroom2, if_neg hu]
      have hr1 : room1 = room := by rw [hroom1, if_neg hd]
      have hempty : ((Finset.range room.tiles.length).filter
          (fun i => room2.tiles.getD i .wall ≠ room.tiles.getD i .wall)) = ∅ := by
        apply Finset.filter_false_of_mem
        intro i _
        rw [hr2, hr1]
        simp
      rw [hempty]
      simp

end DungeonCreator

namespace DungeonCreator

theorem isCorner_iff (r : DungeonRoom) (row col : Nat) :
    r.isCorner row col = true ↔
      ((row = 0 ∨ row = r.rows - 1) ∧ (col = 0 ∨ col = r.columns - 1)) := by
  simp [DungeonRoom.isCorner, Prod.ext_iff]
  tauto

theorem center_not_corner (r : DungeonRoom) (hr : 3 ≤ r.rows) (hc : 3 ≤ r.columns) :
    r.isCorner (r.rows / 2) (r.columns / 2) = false := by
  rw [Bool.eq_false_iff, Ne, isCorner_iff]
  rintro ⟨h1 | h1, h2 | h2⟩ <;> omega

theorem row_col_roundtrip (r : DungeonRoom) (row col : Nat) (hcol : col < r.columns) :
    r.row (r.roomIdx row col) = row ∧ r.col (r.roomIdx row col) = col := by
  unfold DungeonRoom.row DungeonRoom.col DungeonRoom.roomIdx
  constructor
  · rw [Nat.add_comm, Nat.add_mul_div_right _ _ (by omega : 0 < r.columns)]
    rw [Nat.div_eq_of_lt hcol]
    omega
  · rw [Nat.add_comm, Nat.add_mul_mod_self_right]
    exact Nat.mod_eq_of_lt hcol

theorem idx_coords_lt (r : DungeonRoom) (i : Nat) (hlen : r.tiles.length = r.rows * r.columns)
    (hc : 0 < r.columns) (hi : i < r.tiles.length) :
    r.row i < r.rows ∧ r.col i < r.columns := by
  unfold DungeonRoom.row DungeonRoom.col
  constructor
  · rw [Nat.div_lt_iff_lt_mul hc]
    rw [hlen] at hi
    omega
  · exact Nat.mod_lt _ hc

end DungeonCreator

namespace DungeonCreator

theorem CornersWall_set_floor (room : DungeonRoom) (row col : Nat)
    (hcol : col < room.columns)
    (hcorn : room.isCorner row col = false)
    (hinv : CornersWall room) :
    CornersWall { room with tiles := room.tiles.set (room.roomIdx row col) .floor } := by
  intro i hi
  by_cases heq : i = room.roomIdx row col
  · subst heq
    obtain ⟨hrow, hcolr⟩ := row_col_roundtrip room row col hcol
    show room.isCorner _ _ = false
    simp only [DungeonRoom.row, DungeonRoom.col] at hrow hcolr ⊢
    rw [hrow, hcolr]
    exact hcorn
  · apply hinv
    rw [getD_set_ne _ _ _ _ _ heq] at hi
    exact hi

theorem inBounds_iff (r : DungeonRoom) (row col : Int) :
    r.inBounds row col = true ↔
      0 ≤ row ∧ row < (r.rows : Int) ∧ 0 ≤ col ∧ col < (r.columns : Int) := by
  simp [DungeonRoom.inBounds]
  tauto

theorem drunkardGo_corners (R C : Nat) (hR : 3 ≤ R) (hC : 3 ≤ C) :
    ∀ (k : Nat) (room : DungeonRoom) (pos : Int × Int) (rng : Rng) (out : DungeonRoom × Rng),
      room.rows = R → room.columns = C → room.tiles.length = R * C →
      CornersWall room →
      0 ≤ pos.1 → 0 ≤ pos.2 → pos.1 < (R : Int) → pos.2 < (C : Int) →
      room.isCorner pos.1.toNat pos.2.toNat = false →
      drunkardGo .floor room pos rng k = some out →
      out.1.rows = R ∧ out.1.columns = C ∧ out.1.tiles.length = R * C ∧ CornersWall out.1 := by
  intro k
  induction k with
  | zero =>
    intro room pos rng out hrow hcol hlen hinv h1 h2 h3 h4 hcorn h
    unfold drunkardGo at h
    rw [if_neg (by omega)] at h
    dsimp only at h
    have hcol2 : pos.2.toNat < room.columns := by omega
    have hinv2 := CornersWall_set_floor room pos.1.toNat pos.2.toNat hcol2 hcorn hinv
    split at h
    · cases h
      exact ⟨hrow, hcol, by simpa using hlen, hinv2⟩
    · split at h
      · cases h
        exact ⟨hrow, hcol, by simpa using hlen, hinv2⟩
      · cases h
        exact ⟨hrow, hcol, by simpa using hlen, hinv2⟩
  | succ k ih =>
    intro room pos rng out hrow hcol hlen hinv h1 h2 h3 h4 hcorn h
    unfold drunkardGo at h
    rw [if_neg (by omega)] at h
    dsimp only at h
    have hcol2 : pos.2.toNat < room.columns := by omega
    have hinv2 := CornersWall_set_floor room pos.1.toNat pos.2.toNat hcol2 hcorn hinv
    split at h
    · cases h
      exact ⟨hrow, hcol, by simpa using hlen, hinv2⟩
    · split at h
      · cases h
        exact ⟨hrow, hcol, by simpa using hlen, hinv2⟩
      · rename_i hneg hbc
        push_neg at hneg hbc
        obtain ⟨hb, hc⟩ := hbc
        have hc2 := Bool.eq_false_iff.mpr hc
        rw [inBounds_iff] at hb
        rw [hrow, hcol] at hb
        exact ih
          { room with tiles := room.tiles.set (room.roomIdx pos.1.toNat pos.2.toNat) .floor }
          (stepPos (genRange 0 4 rng).1 pos) (genRange 0 4 rng).2 out
          hrow hcol (by simpa using hlen) hinv2 hb.1 hb.2.2.1 hb.2.1 hb.2.2.2 hc2 h

end DungeonCreator

namespace DungeonCreator

theorem calcNext_valid (b : DrunkardRoomBuilder) (room : DungeonRoom)
    (eh et : List Direction3D)
    (hrow : room.rows = b.rows) (hcol : room.columns = b.cols)
    (hlen : room.tiles.length = b.rows * b.cols)
    (hR : 3 ≤ b.rows) (hC : 3 ≤ b.cols) (hinv : CornersWall room) :
    (b.calculateNextStartPoint room eh et).1 < b.rows ∧
    (b.calculateNextStartPoint room eh et).2 < b.cols ∧
    room.isCorner (b.calculateNextStartPoint room eh et).1
      (b.calculateNextStartPoint room eh et).2 = false := by
  have hcenter : (b.rows / 2) < b.rows ∧ (b.cols / 2) < b.cols ∧
      room.isCorner (b.rows / 2) (b.cols / 2) = false := by
    refine ⟨Nat.div_lt_self (by omega) (by omega), Nat.div_lt_self (by omega) (by omega), ?_⟩
    have := center_not_corner room (by omega) (by omega)
    rw [hrow, hcol] at this
    exact this
  have hfloors : ∀ r ∈ (List.range room.tiles.length).filter
      (fun idx => decide (room.tiles.getD idx .wall = .floor)),
      room.row r < b.rows ∧ room.col r < b.cols ∧
        room.isCorner (room.row r) (room.col r) = false := by
    intro r hr
    obtain ⟨hmem, hfl⟩ := List.mem_filter.mp hr
    have hrlt : r < room.tiles.length := List.mem_range.mp hmem
    have hfl2 : room.tiles.getD r .wall = .floor := by simpa using hfl
    obtain ⟨ha, hb2⟩ := idx_coords_lt room r (by rw [hlen, hrow, hcol]) (by omega) hrlt
    refine ⟨by omega, by omega, hinv r (by rw [hfl2]; simp)⟩
  unfold DrunkardRoomBuilder.calculateNextStartPoint
  dsimp only
  split
  · exact hcenter
  · split
    · exact hcenter
    · rename_i direction hdir
      split
      · exact hcenter
      · rename_i r hres
        have hmem : r ∈ (List.range room.tiles.length).filter
            (fun idx => decide (room.tiles.getD idx .wall = .floor)) := by
          rcases direction with _ | _ | _ | _ | _ | _ | _ <;> dsimp only at hres <;>
            first
            | exact maxByKeyLast_mem _ _ _ hres
            | exact minByKeyFirst_mem _ _ _ hres
            | exact Option.noConfusion hres
        exact hfloors r hmem

end DungeonCreator

namespace DungeonCreator

theorem CornersWall_congr (a b : DungeonRoom) (ht : a.tiles = b.tiles)
    (hr : a.rows = b.rows) (hc : a.columns = b.columns) (h : CornersWall b) :
    CornersWall a := by
  intro i hi
  rw [ht] at hi
  have hb := h i hi
  simp only [DungeonRoom.row, DungeonRoom.col, DungeonRoom.isCorner, hr, hc] at hb ⊢
  exact hb

theorem pathingStep_inv (r r' : DungeonRoom) (h : pathingStep r = some r') :
    r'.tiles = r.tiles ∧ r'.rows = r.rows ∧ r'.columns = r.columns := by
  unfold pathingStep at h
  split at h
  · exact Option.noConfusion h
  · cases h
    exact ⟨rfl, rfl, rfl⟩

theorem closeSideStep_inv (acc : DungeonRoom × Bool) (idx : Nat) :
    (closeSideStep acc idx).1.rows = acc.1.rows ∧
    (closeSideStep acc idx).1.columns = acc.1.columns ∧
    (closeSideStep acc idx).1.tiles.length = acc.1.tiles.length ∧
    (CornersWall acc.1 → CornersWall (closeSideStep acc idx).1) := by
  unfold closeSideStep
  split
  · refine ⟨rfl, rfl, by simp, ?_⟩
    intro hinv i hi
    dsimp only at hi
    by_cases heq : i = idx
    · subst heq
      by_cases hlt : i < acc.1.tiles.length
      · exact absurd (getD_set_self _ _ _ _ hlt) hi
      · rw [List.set_eq_of_length_le (by omega)] at hi
        exact hinv i hi
    · rw [getD_set_ne _ _ _ _ _ heq] at hi
      exact hinv i hi
  · exact ⟨rfl, rfl, rfl, id⟩

theorem closeSide_fold_inv (l : List Nat) :
    ∀ acc : DungeonRoom × Bool,
      (l.foldl closeSideStep acc).1.rows = acc.1.rows ∧
      (l.foldl closeSideStep acc).1.columns = acc.1.columns ∧
      (l.foldl closeSideStep acc).1.tiles.length = acc.1.tiles.length ∧
      (CornersWall acc.1 → CornersWall (l.foldl closeSideStep acc).1) := by
  induction l with
  | nil => intro acc; exact ⟨rfl, rfl, rfl, id⟩
  | cons x xs ih =>
    intro acc
    simp only [List.foldl_cons]
    obtain ⟨h1, h2, h3, h4⟩ := ih (closeSideStep acc x)
    obtain ⟨g1, g2, g3, g4⟩ := closeSideStep_inv acc x
    exact ⟨h1.trans g1, h2.trans g2, h3.trans g3, fun hc => h4 (g4 hc)⟩

theorem closeSide_inv (r : DungeonRoom) (d : Direction3D) (r' : DungeonRoom)
    (h : closeSide r d = some r') :
    r'.rows = r.rows ∧ r'.columns = r.columns ∧ r'.tiles.length = r.tiles.length ∧
    (CornersWall r → CornersWall r') := by
  have hfold := closeSide_fold_inv (r.sideIndexes d) (r, false)
  unfold closeSide at h
  rcases hF : (r.sideIndexes d).foldl closeSideStep (r, false) with ⟨rf, changed⟩
  rw [hF] at h hfold
  dsimp only at h hfold
  obtain ⟨f1, f2, f3, f4⟩ := hfold
  cases changed with
  | false =>
    simp only [if_neg (by simp : ¬ (false = true))] at h
    cases h
    exact ⟨f1, f2, f3, f4⟩
  | true =>
    simp only [if_pos rfl] at h
    obtain ⟨p1, p2, p3⟩ := pathingStep_inv rf r' h
    refine ⟨p2.trans f1, p3.trans f2, by rw [p1]; exact f3, ?_⟩
    intro hc
    exact CornersWall_congr r' rf p1 p2 p3 (f4 hc)

theorem closeSides_fold_none (ds : List Direction3D) :
    ds.foldl (fun acc d => acc.bind (fun r => closeSide r d)) Option.none = Option.none := by
  induction ds with
  | nil => rfl
  | cons d ds ih => simpa using ih

theorem closeSides_fold_inv (ds : List Direction3D) :
    ∀ (room out : DungeonRoom),
      ds.foldl (fun acc d => acc.bind (fun r => closeSide r d)) (some room) = some out →
      out.rows = room.rows ∧ out.columns = room.columns ∧
      out.tiles.length = room.tiles.length ∧ (CornersWall room → CornersWall out) := by
  induction ds with
  | nil =>
    intro room out h
    cases h
    exact ⟨rfl, rfl, rfl, id⟩
  | cons d ds ih =>
    intro room out h
    simp only [List.foldl_cons, Option.some_bind] at h
    cases hcs : closeSide room d with
    | none =>
      rw [hcs, closeSides_fold_none] at h
      exact Option.noConfusion h
    | some r1 =>
      rw [hcs] at h
      obtain ⟨h1, h2, h3, h4⟩ := ih r1 out h
      obtain ⟨g1, g2, g3, g4⟩ := closeSide_inv room d r1 hcs
      exact ⟨h1.trans g1, h2.trans g2, h3.trans g3, fun hc => h4 (g4 hc)⟩

end DungeonCreator

namespace DungeonCreator

theorem getD_replicate (n i : Nat) (a : DungeonTile) :
    (List.replicate n a).getD i a = a := by
  rw [List.getD_eq_getElem?_getD, List.getElem?_replicate]
  split <;> rfl

theorem createRoomLoop_corners (b : DrunkardRoomBuilder) (hmode : b.mode = .findExits)
    (hR : 3 ≤ b.rows) (hC : 3 ≤ b.cols) :
    ∀ (fuel : Nat) (exitsToHit : List Direction3D) (room : DungeonRoom)
      (nextStart : Nat × Nat) (exitsHit : List Direction3D) (allHit : Bool) (iters : Nat)
      (rng : Rng) (out : DungeonRoom × List Direction3D × Rng),
      room.rows = b.rows → room.columns = b.cols → room.tiles.length = b.rows * b.cols →
      CornersWall room →
      nextStart.1 < b.rows → nextStart.2 < b.cols →
      room.isCorner nextStart.1 nextStart.2 = false →
      createRoomLoop b exitsToHit fuel room nextStart exitsHit allHit iters rng = some out →
      out.1.rows = b.rows ∧ out.1.columns = b.cols ∧
        out.1.tiles.length = b.rows * b.cols ∧ CornersWall out.1 := by
  intro fuel
  induction fuel with
  | zero =>
    intro exitsToHit room nextStart exitsHit allHit iters rng out
      hrow hcol hlen hinv hs1 hs2 hscorn h
    unfold createRoomLoop at h
    split at h
    · exact Option.noConfusion h
    · cases h
      exact ⟨hrow, hcol, hlen, hinv⟩
  | succ k ih =>
    intro exitsToHit room nextStart exitsHit allHit iters rng out
      hrow hcol hlen hinv hs1 hs2 hscorn h
    unfold createRoomLoop at h
    split at h
    · dsimp only at h
      cases hd : b.drunkard nextStart rng room with
      | none =>
        rw [hd] at h
        exact Option.noConfusion h
      | some pr =>
        obtain ⟨room', rng'⟩ := pr
        rw [hd] at h
        dsimp only at h
        have hd' : drunkardGo .floor room ((nextStart.1 : Int), (nextStart.2 : Int)) rng
            b.steps = some (room', rng') := by
          have hd2 := hd
          unfold DrunkardRoomBuilder.drunkard at hd2
          rw [hmode] at hd2
          exact hd2
        have hg := drunkardGo_corners b.rows b.cols hR hC b.steps room
          ((nextStart.1 : Int), (nextStart.2 : Int)) rng (room', rng')
          hrow hcol hlen hinv (Int.natCast_nonneg _) (Int.natCast_nonneg _)
          (by show (nextStart.1 : Int) < (b.rows : Int); exact_mod_cast hs1)
          (by show (nextStart.2 : Int) < (b.cols : Int); exact_mod_cast hs2)
          (by simpa using hscorn) hd'
        have hcn := calcNext_valid b room' (getHitExits b.rows b.cols room') exitsToHit
          hg.1 hg.2.1 hg.2.2.1 hR hC hg.2.2.2
        exact ih exitsToHit room' _ _ _ _ _ out hg.1 hg.2.1 hg.2.2.1 hg.2.2.2
          hcn.1 hcn.2.1 hcn.2.2 h
    · cases h
      exact ⟨hrow, hcol, hlen, hinv⟩

end DungeonCreator

namespace DungeonCreator

/-- C10: for every drunkard builder in FindExits mode with at least 3 rows and
3 columns, every requirement, every RNG state and any fuel, whenever
`create_room` returns a room, each of its four corner tiles is Wall: the walk
starts at the center or a carved Floor tile, stops before carving any corner,
and side-sealing only writes Wall. -/
theorem c10_corners (b : DrunkardRoomBuilder) (rng : Rng) (roomConfig : FloorRoom)
    (fuel : Nat) (out : DungeonRoom × Rng)
    (hmode : b.mode = .findExits) (hR : 3 ≤ b.rows) (hC : 3 ≤ b.cols)
    (h : b.createRoom rng roomConfig fuel = some out) :
    ∀ row col, out.1.isCorner row col = true →
      out.1.tiles.getD (out.1.roomIdx row col) .wall = .wall := by
  unfold DrunkardRoomBuilder.createRoom at h
  rw [hmode] at h
  dsimp only at h
  cases hloop : createRoomLoop b roomConfig.exits fuel
      { DungeonRoom.default with
          tiles := List.replicate (b.rows * b.cols) .wall
          rows := b.rows
          columns := b.cols
          stairUp := roomConfig.stairUp
          stairDown := roomConfig.stairDown }
      (b.rows / 2, b.cols / 2) [] false 0 rng with
  | none =>
    rw [hloop] at h
    exact Option.noConfusion h
  | some tr =>
    obtain ⟨room1, exitsHit1, rng1⟩ := tr
    rw [hloop] at h
    dsimp only at h
    have hinv0 : CornersWall
        { DungeonRoom.default with
            tiles := List.replicate (b.rows * b.cols) .wall
            rows := b.rows
            columns := b.cols
            stairUp := roomConfig.stairUp
            stairDown := roomConfig.stairDown } := by
      intro i hi
      exact absurd (getD_replicate _ _ _) hi
    have hg := createRoomLoop_corners b hmode hR hC fuel roomConfig.exits _
      (b.rows / 2, b.cols / 2) [] false 0 rng (room1, exitsHit1, rng1)
      rfl rfl (by simp)
      hinv0
      (Nat.div_lt_self (by omega) (by omega))
      (Nat.div_lt_self (by omega) (by omega))
      (by
        have := center_not_corner
          { DungeonRoom.default with
              tiles := List.replicate (b.rows * b.cols) .wall
              rows := b.rows
              columns := b.cols
              stairUp := roomConfig.stairUp
              stairDown := roomConfig.stairDown }
          hR hC
        exact this)
      hloop
    cases hfold : (exitsHit1.filter (fun e => ¬ roomConfig.exits.contains e)).foldl
        (fun acc d => acc.bind (fun r => closeSide r d)) (some room1) with
    | none =>
      rw [hfold] at h
      exact Option.noConfusion h
    | some room2 =>
      rw [hfold] at h
      cases h
      dsimp only
      obtain ⟨f1, f2, f3, f4⟩ := closeSides_fold_inv _ room1 room2 hfold
      have hCW : CornersWall room2 := f4 hg.2.2.2
      have hrows2 : room2.rows = b.rows := f1.trans hg.1
      have hcols2 : room2.columns = b.cols := f2.trans hg.2.1
      intro row col hcorn
      by_contra hne
      have hthis := hCW (room2.roomIdx row col) hne
      have hcol_lt : col < room2.columns := by
        rw [isCorner_iff] at hcorn
        rcases hcorn.2 with hc0 | hc1 <;> omega
      obtain ⟨hr1, hr2⟩ := row_col_roundtrip room2 row col hcol_lt
      rw [hr1, hr2] at hthis
      rw [hcorn] at hthis
      exact Bool.noConfusion hthis

/-- Witness: the 3×3 FindExits drunkard builder on RNG `[0, 0]` with no
required exits returns a room whose top-left corner (and, by the theorem,
every corner) is Wall. -/
theorem c10_corners_witness :
    c10Builder.mode = .findExits ∧ 3 ≤ c10Builder.rows ∧ 3 ≤ c10Builder.cols ∧
    c10Builder.createRoom [0, 0] c10Req 5 = some c10Out ∧
    c10Out.1.isCorner 0 0 = true ∧
    c10Out.1.tiles.getD (c10Out.1.roomIdx 0 0) .wall = .wall :=
  ⟨rfl, by decide, by decide, by decide, by decide,
   c10_corners c10Builder [0, 0] c10Req 5 c10Out rfl (by decide) (by decide) (by decide)
     0 0 (by decide)⟩

end DungeonCreator

namespace DungeonCreator

theorem tileAdj_symm (room : DungeonRoom) (a b : Nat) (h : tileAdj room a b) :
    tileAdj room b a := by
  obtain ⟨ha, hb, hrel⟩ := h
  refine ⟨hb, ha, ?_⟩
  rcases hrel with ⟨hr, hc⟩ | hv | hv
  · exact Or.inl ⟨hr.symm, hc.symm⟩
  · exact Or.inr (Or.inr hv)
  · exact Or.inr (Or.inl hv)

theorem idx_decomp (r : DungeonRoom) (i : Nat) : r.roomIdx (r.row i) (r.col i) = i := by
  unfold DungeonRoom.roomIdx DungeonRoom.row DungeonRoom.col
  exact Nat.div_add_mod' i r.columns

theorem roomIdx_lt (r : DungeonRoom) (row col : Nat) (hr : row < r.rows)
    (hc : col < r.columns) :
    r.roomIdx row col < r.rows * r.columns := by
  unfold DungeonRoom.roomIdx
  calc row * r.columns + col < row * r.columns + r.columns := by omega
    _ = (row + 1) * r.columns := by ring
    _ ≤ r.rows * r.columns := Nat.mul_le_mul_right _ hr

theorem row_col_left (r : DungeonRoom) (i : Nat) (hc : 0 < r.columns) (h : 0 < r.col i) :
    r.row (i - 1) = r.row i ∧ r.col (i - 1) = r.col i - 1 ∧ 0 < i := by
  have hdm := Nat.div_add_mod' i r.columns
  have hmlt : i % r.columns < r.columns := Nat.mod_lt _ hc
  unfold DungeonRoom.col at h
  have hi0 : 0 < i := by
    have := Nat.mod_le i r.columns
    omega
  have hidx : r.roomIdx (r.row i) (r.col i - 1) = i - 1 := by
    unfold DungeonRoom.roomIdx DungeonRoom.row DungeonRoom.col
    omega
  have key := row_col_roundtrip r (r.row i) (r.col i - 1)
    (by unfold DungeonRoom.col; omega)
  rw [hidx] at key
  exact ⟨key.1, key.2, hi0⟩

theorem row_col_right (r : DungeonRoom) (i : Nat) (hc : 0 < r.columns)
    (h : r.col i < r.columns - 1) :
    r.row (i + 1) = r.row i ∧ r.col (i + 1) = r.col i + 1 := by
  have hdm := Nat.div_add_mod' i r.columns
  unfold DungeonRoom.col at h
  have hidx : r.roomIdx (r.row i) (r.col i + 1) = i + 1 := by
    unfold DungeonRoom.roomIdx DungeonRoom.row DungeonRoom.col
    omega
  have key := row_col_roundtrip r (r.row i) (r.col i + 1)
    (by unfold DungeonRoom.col; omega)
  rw [hidx] at key
  exact ⟨key.1, key.2⟩

end DungeonCreator

namespace DungeonCreator

theorem col_pos_of_succ_same_row (r : DungeonRoom) (i j : Nat) (hc : 0 < r.columns)
    (hrow : r.row i = r.row j) (hij : j = i + 1) :
    r.col j = r.col i + 1 := by
  have h1 := Nat.div_add_mod' i r.columns
  have h2 := Nat.div_add_mod' j r.columns
  have hmi : i % r.columns < r.columns := Nat.mod_lt _ hc
  have hmj : j % r.columns < r.columns := Nat.mod_lt _ hc
  unfold DungeonRoom.row at hrow
  rw [hrow] at h1
  unfold DungeonRoom.col
  omega

theorem adj_of_mem_neighborFloors (room : DungeonRoom) (hc : 0 < room.columns)
    (hlen : room.tiles.length = room.rows * room.columns) (i : Nat)
    (hi : i < room.tiles.length) (hw : room.tiles.getD i .wall ≠ .wall)
    (j : Nat) (hj : j ∈ neighborFloors room i) : tileAdj room i j := by
  have hnwi : nonWallTile room i := ⟨hi, hw⟩
  obtain ⟨hrlt, hclt⟩ := idx_coords_lt room i hlen hc hi
  simp only [neighborFloors, List.mem_append, mem_ite_singleton, or_assoc] at hj
  rcases hj with ⟨⟨hr0, hwj⟩, rfl⟩ | ⟨⟨hc0, hwj⟩, rfl⟩ | ⟨⟨hcl, hwj⟩, rfl⟩ | ⟨⟨hrl, hwj⟩, rfl⟩
  · -- up neighbour: j = i - columns
    have hci : room.columns ≤ i := by
      by_contra hcon
      have : room.row i = 0 := by
        unfold DungeonRoom.row
        exact Nat.div_eq_of_lt (by omega)
      omega
    refine ⟨hnwi, ⟨by omega, hwj⟩, Or.inr (Or.inr (by omega))⟩
  · -- left neighbour: j = i - 1
    obtain ⟨hr, _, hi0⟩ := row_col_left room i hc hc0
    exact ⟨hnwi, ⟨by omega, hwj⟩, Or.inl ⟨hr.symm, Or.inr (by omega)⟩⟩
  · -- right neighbour: j = i + 1
    obtain ⟨hr, hcol⟩ := row_col_right room i hc hcl
    have hjlt : i + 1 < room.tiles.length := by
      have := roomIdx_lt room (room.row i) (room.col i + 1) hrlt (by omega)
      have hidx : room.roomIdx (room.row i) (room.col i + 1) = i + 1 := by
        have hdm := Nat.div_add_mod' i room.columns
        unfold DungeonRoom.roomIdx DungeonRoom.row DungeonRoom.col
        unfold DungeonRoom.col at hcl
        omega
      omega
    exact ⟨hnwi, ⟨hjlt, hwj⟩, Or.inl ⟨hr.symm, Or.inl rfl⟩⟩
  · -- down neighbour: j = i + columns
    have hjlt : i + room.columns < room.tiles.length := by
      have := roomIdx_lt room (room.row i + 1) (room.col i) (by omega) hclt
      have hidx : room.roomIdx (room.row i + 1) (room.col i) = i + room.columns := by
        have hdm := Nat.div_add_mod' i room.columns
        unfold DungeonRoom.roomIdx DungeonRoom.row DungeonRoom.col
        ring_nf
        ring_nf at hdm
        omega
      omega
    exact ⟨hnwi, ⟨hjlt, hwj⟩, Or.inr (Or.inl rfl)⟩

theorem mem_neighborFloors_of_adj (room : DungeonRoom) (hc : 0 < room.columns)
    (i j : Nat) (hij : tileAdj room i j) (hlt : i < j) : i ∈ neighborFloors room j := by
  obtain ⟨⟨hilen, hiw⟩, ⟨hjlen, hjw⟩, hrel⟩ := hij
  simp only [neighborFloors, List.mem_append, mem_ite_singleton, or_assoc]
  rcases hrel with ⟨hrow, hsucc | hsucc⟩ | hv | hv
  · -- j = i + 1, same row: i is the left neighbour of j
    have hcj : room.col j = room.col i + 1 := col_pos_of_succ_same_row room i j hc hrow hsucc
    right; left
    exact ⟨⟨by omega, by rw [show j - 1 = i by omega]; exact hiw⟩, by omega⟩
  · omega
  · -- j = i + columns: i is the up neighbour of j
    have hrj : 0 < room.row j := by
      unfold DungeonRoom.row
      exact Nat.div_pos (by omega) hc
    left
    exact ⟨⟨hrj, by rw [show j - room.columns = i by omega]; exact hiw⟩, by omega⟩
  · omega

end DungeonCreator


namespace DungeonCreator

/-- Invariant of the first phase of `connected_tile_sets` after processing
tile indices below `k`: every recorded tile is a processed non-Wall tile,
every processed non-Wall tile is recorded, every set is 4-connected, and any
two adjacent processed tiles share a set. -/
def Phase1Inv (room : DungeonRoom) (k : Nat) (sets : List (Finset Nat)) : Prop :=
  (∀ s ∈ sets, ∀ x ∈ s, x < k ∧ nonWallTile room x) ∧
  (∀ x, x < k → nonWallTile room x → ∃ s ∈ sets, x ∈ s) ∧
  (∀ s ∈ sets, ∀ x ∈ s, ∀ y ∈ s, tileReach room x y) ∧
  (∀ i j, tileAdj room i j → i < k → j < k → ∃ s ∈ sets, i ∈ s ∧ j ∈ s)

theorem placeTile_inv (room : DungeonRoom) (hc : 0 < room.columns)
    (hlen : room.tiles.length = room.rows * room.columns) (k : Nat)
    (hk : k < room.tiles.length) (sets : List (Finset Nat))
    (hinv : Phase1Inv room k sets) : Phase1Inv room (k + 1) (placeTile room sets k) := by
  obtain ⟨h1, h2, h3, h4⟩ := hinv
  unfold placeTile
  by_cases hw : room.tiles.getD k .wall = .wall
  · rw [if_pos hw]
    refine ⟨?_, ?_, h3, ?_⟩
    · intro s hs x hx
      obtain ⟨ha, hb⟩ := h1 s hs x hx
      exact ⟨by omega, hb⟩
    · intro x hx hnw
      rcases Nat.lt_or_ge x k with h | h
      · exact h2 x h hnw
      · exact absurd hw (by rw [show x = k by omega] at hnw; exact hnw.2)
    · intro i j hadj hik hjk
      rcases Nat.lt_or_ge i k with h | h
      · rcases Nat.lt_or_ge j k with h' | h'
        · exact h4 i j hadj h h'
        · exact absurd hw (by rw [show j = k by omega] at hadj; exact hadj.2.1.2)
      · exact absurd hw (by rw [show i = k by omega] at hadj; exact hadj.1.2)
  · rw [if_neg hw]
    dsimp only
    have hnwk : nonWallTile room k := ⟨hk, hw⟩
    set neighs := neighborFloors room k with hneighs
    set f : Finset Nat → Finset Nat :=
      (fun s => if (neighs.any fun n => n ∈ s) = true then insert k s else s) with hf
    have hsub : ∀ s : Finset Nat, ∀ x ∈ s, x ∈ f s := by
      intro s x hx
      rw [hf]
      dsimp only
      split
      · exact Finset.mem_insert_of_mem hx
      · exact hx
    have hmm : ∀ s' ∈ sets.map f, ∃ s ∈ sets,
        (s' = insert k s ∧ ∃ n ∈ neighs, n ∈ s) ∨ s' = s := by
      intro s' hs'
      obtain ⟨s, hs, hfs⟩ := List.mem_map.mp hs'
      refine ⟨s, hs, ?_⟩
      rw [hf] at hfs
      dsimp only at hfs
      by_cases hcond : (neighs.any fun n => n ∈ s) = true
      · rw [if_pos hcond] at hfs
        obtain ⟨n, hn, hns⟩ := List.any_eq_true.mp hcond
        exact Or.inl ⟨hfs.symm, n, hn, of_decide_eq_true hns⟩
      · rw [if_neg hcond] at hfs
        exact Or.inr hfs.symm
    have c1 : ∀ s' ∈ sets.map f, ∀ x ∈ s', x < k + 1 ∧ nonWallTile room x := by
      intro s' hs' x hx
      obtain ⟨s, hs, hcase⟩ := hmm s' hs'
      rcases hcase with ⟨rfl, -⟩ | heq
      · rcases Finset.mem_insert.mp hx with hxk | hx'
        · rw [hxk]
          exact ⟨by omega, hnwk⟩
        · obtain ⟨ha, hb⟩ := h1 s hs x hx'
          exact ⟨by omega, hb⟩
      · rw [heq] at hx
        obtain ⟨ha, hb⟩ := h1 s hs x hx
        exact ⟨by omega, hb⟩
    have c3 : ∀ s' ∈ sets.map f, ∀ x ∈ s', ∀ y ∈ s', tileReach room x y := by
      intro s' hs' x hx y hy
      obtain ⟨s, hs, hcase⟩ := hmm s' hs'
      rcases hcase with ⟨rfl, n, hn, hns⟩ | heq
      · have hadj : tileAdj room k n := adj_of_mem_neighborFloors room hc hlen k hk hw n hn
        rcases Finset.mem_insert.mp hx with hxk | hx' <;>
          rcases Finset.mem_insert.mp hy with hyk | hy'
        · rw [hxk, hyk]
          exact Relation.ReflTransGen.refl
        · rw [hxk]
          exact Relation.ReflTransGen.head hadj (h3 s hs n hns y hy')
        · rw [hyk]
          exact Relation.ReflTransGen.tail (h3 s hs x hx' n hns) (tileAdj_symm room k n hadj)
        · exact h3 s hs x hx' y hy'
      · rw [heq] at hx hy
        exact h3 s hs x hx y hy
    have ccore : ∀ i j, tileAdj room i j → i < k → j = k →
        ∃ s' ∈ sets.map f, i ∈ s' ∧ j ∈ s' := by
      intro i j hadj hik hjk
      have hn : i ∈ neighs := by
        have := mem_neighborFloors_of_adj room hc i j hadj (by omega)
        rw [hjk] at this
        rw [hneighs]
        exact this
      obtain ⟨s, hs, hxs⟩ := h2 i hik hadj.1
      have hcond : (neighs.any fun n => n ∈ s) = true :=
        List.any_eq_true.mpr ⟨i, hn, decide_eq_true hxs⟩
      refine ⟨f s, List.mem_map_of_mem f hs, ?_, ?_⟩
      · rw [hf]
        dsimp only
        rw [if_pos hcond]
        exact Finset.mem_insert_of_mem hxs
      · rw [hf]
        dsimp only
        rw [if_pos hcond, hjk]
        exact Finset.mem_insert_self k s
    have cold : ∀ i j, tileAdj room i j → i < k → j < k →
        ∃ s' ∈ sets.map f, i ∈ s' ∧ j ∈ s' := by
      intro i j hadj hik hjk
      obtain ⟨s, hs, hi', hj'⟩ := h4 i j hadj hik hjk
      exact ⟨f s, List.mem_map_of_mem f hs, hsub s i hi', hsub s j hj'⟩
    by_cases hfound : (sets.any fun s => neighs.any fun n => n ∈ s) = true
    · rw [if_pos hfound]
      refine ⟨c1, ?_, c3, ?_⟩
      · intro x hx hnw
        rcases Nat.lt_or_ge x k with h | h
        · obtain ⟨s, hs, hxs⟩ := h2 x h hnw
          exact ⟨f s, List.mem_map_of_mem f hs, hsub s x hxs⟩
        · obtain ⟨s, hs, hcond⟩ := List.any_eq_true.mp hfound
          refine ⟨f s, List.mem_map_of_mem f hs, ?_⟩
          rw [hf]
          dsimp only
          rw [if_pos hcond, show x = k by omega]
          exact Finset.mem_insert_self k s
      · intro i j hadj hik hjk
        rcases Nat.lt_or_ge i k with hi | hi
        · rcases Nat.lt_or_ge j k with hj | hj
          · exact cold i j hadj hi hj
          · exact ccore i j hadj hi (by omega)
        · rcases Nat.lt_or_ge j k with hj | hj
          · obtain ⟨s', hs', ha, hb⟩ := ccore j i (tileAdj_symm room i j hadj) hj (by omega)
            exact ⟨s', hs', hb, ha⟩
          · obtain ⟨s, hs, hcond⟩ := List.any_eq_true.mp hfound
            refine ⟨f s, List.mem_map_of_mem f hs, ?_, ?_⟩
            · rw [hf]
              dsimp only
              rw [if_pos hcond, show i = k by omega]
              exact Finset.mem_insert_self k s
            · rw [hf]
              dsimp only
              rw [if_pos hcond, show j = k by omega]
              exact Finset.mem_insert_self k s
    · rw [if_neg hfound]
      refine ⟨?_, ?_, ?_, ?_⟩
      · intro s' hs' x hx
        rcases List.mem_append.mp hs' with hs'' | hs''
        · exact c1 s' hs'' x hx
        · rw [List.mem_singleton.mp hs''] at hx
          rw [Finset.mem_singleton.mp hx]
          exact ⟨by omega, hnwk⟩
      · intro x hx hnw
        rcases Nat.lt_or_ge x k with h | h
        · obtain ⟨s, hs, hxs⟩ := h2 x h hnw
          exact ⟨f s, List.mem_append_left _ (List.mem_map_of_mem f hs), hsub s x hxs⟩
        · refine ⟨{k}, List.mem_append_right _ (List.mem_singleton_self _), ?_⟩
          rw [show x = k by omega]
          exact Finset.mem_singleton_self k
      · intro s' hs' x hx y hy
        rcases List.mem_append.mp hs' with hs'' | hs''
        · exact c3 s' hs'' x hx y hy
        · rw [List.mem_singleton.mp hs''] at hx hy
          rw [Finset.mem_singleton.mp hx, Finset.mem_singleton.mp hy]
          exact Relation.ReflTransGen.refl
      · intro i j hadj hik hjk
        rcases Nat.lt_or_ge i k with hi | hi
        · rcases Nat.lt_or_ge j k with hj | hj
          · obtain ⟨s', hs', ha, hb⟩ := cold i j hadj hi hj
            exact ⟨s', List.mem_append_left _ hs', ha, hb⟩
          · obtain ⟨s', hs', ha, hb⟩ := ccore i j hadj hi (by omega)
            exact ⟨s', List.mem_append_left _ hs', ha, hb⟩
        · rcases Nat.lt_or_ge j k with hj | hj
          · obtain ⟨s', hs', ha, hb⟩ := ccore j i (tileAdj_symm room i j hadj) hj (by omega)
            exact ⟨s', List.mem_append_left _ hs', hb, ha⟩
          · refine ⟨{k}, List.mem_append_right _ (List.mem_singleton_self _), ?_, ?_⟩
            · rw [show i = k by omega]
              exact Finset.mem_singleton_self k
            · rw [show j = k by omega]
              exact Finset.mem_singleton_self k

end DungeonCreator

namespace DungeonCreator

theorem phase1_fold (room : DungeonRoom) (hc : 0 < room.columns)
    (hlen : room.tiles.length = room.rows * room.columns) :
    ∀ n, n ≤ room.tiles.length →
      Phase1Inv room n ((List.range n).foldl (placeTile room) []) := by
  intro n
  induction n with
  | zero =>
    intro _
    refine ⟨?_, ?_, ?_, ?_⟩
    · intro s hs
      exact absurd hs (List.not_mem_nil s)
    · intro x hx
      omega
    · intro s hs
      exact absurd hs (List.not_mem_nil s)
    · intro i j _ hik
      omega
  | succ n ih =>
    intro hn
    rw [List.range_succ, List.foldl_append]
    exact placeTile_inv room hc hlen n (by omega) _ (ih (by omega))

/-- Invariant carried through the merge phase of `connected_tile_sets`:
members are non-Wall tiles, every non-Wall tile is covered, every set is
4-connected, and any two 4-adjacent tiles share a set. -/
def MergeInv (room : DungeonRoom) (sets : List (Finset Nat)) : Prop :=
  (∀ s ∈ sets, ∀ x ∈ s, nonWallTile room x) ∧
  (∀ x, nonWallTile room x → ∃ s ∈ sets, x ∈ s) ∧
  (∀ s ∈ sets, ∀ x ∈ s, ∀ y ∈ s, tileReach room x y) ∧
  (∀ i j, tileAdj room i j → ∃ s ∈ sets, i ∈ s ∧ j ∈ s)

theorem mergeInv_of_phase1 (room : DungeonRoom) (sets : List (Finset Nat))
    (h : Phase1Inv room room.tiles.length sets) : MergeInv room sets := by
  obtain ⟨h1, h2, h3, h4⟩ := h
  refine ⟨fun s hs x hx => (h1 s hs x hx).2, fun x hnw => h2 x hnw.1 hnw, h3, ?_⟩
  intro i j hadj
  exact h4 i j hadj hadj.1.1 hadj.2.1.1

theorem getD_mem_or_empty (l : List (Finset Nat)) (i : Nat) :
    l.getD i ∅ ∈ l ∨ l.getD i ∅ = (∅ : Finset Nat) := by
  rcases Nat.lt_or_ge i l.length with h | h
  · left
    rw [List.getD_eq_getElem?_getD, List.getElem?_eq_getElem h]
    exact List.getElem_mem h
  · right
    rw [List.getD_eq_getElem?_getD, List.getElem?_eq_none (by omega)]
    rfl

end DungeonCreator

namespace DungeonCreator

theorem getD_eq_of_getElem (l : List (Finset Nat)) (m : Nat) (hm : m < l.length) :
    l.getD m ∅ = l.get ⟨m, hm⟩ := by
  rw [List.getD_eq_getElem?_getD, List.getElem?_eq_getElem hm]
  rfl

theorem mergePair_inv (room : DungeonRoom) (acc : List (Finset Nat) × Bool)
    (p : Nat × Nat) (hp : p.1 ≠ p.2) (h : MergeInv room acc.1) :
    MergeInv room (mergePair acc p).1 := by
  obtain ⟨h1, h2, h3, h4⟩ := h
  unfold mergePair
  dsimp only
  split
  · rename_i hne
    obtain ⟨w, hw⟩ := hne
    rw [Finset.mem_inter] at hw
    have hp1 : p.1 < acc.1.length := by
      by_contra hcon
      have hw1 := hw.1
      rw [List.getD_eq_getElem?_getD, List.getElem?_eq_none (by omega)] at hw1
      exact absurd hw1 (Finset.not_mem_empty w)
    have hp2 : p.2 < acc.1.length := by
      by_contra hcon
      have hw2 := hw.2
      rw [List.getD_eq_getElem?_getD, List.getElem?_eq_none (by omega)] at hw2
      exact absurd hw2 (Finset.not_mem_empty w)
    have hts1 : acc.1.getD p.1 ∅ ∈ acc.1 := by
      rcases getD_mem_or_empty acc.1 p.1 with h | h
      · exact h
      · rw [h] at hw
        exact absurd hw.1 (Finset.not_mem_empty w)
    have hts2 : acc.1.getD p.2 ∅ ∈ acc.1 := by
      rcases getD_mem_or_empty acc.1 p.2 with h | h
      · exact h
      · rw [h] at hw
        exact absurd hw.2 (Finset.not_mem_empty w)
    set u := acc.1.getD p.1 ∅ ∪ acc.1.getD p.2 ∅ with hu
    set L := (acc.1.set p.1 u).set p.2 (∅ : Finset Nat) with hL
    have hLp1 : L.getD p.1 ∅ = u := by
      rw [hL, getD_set_ne _ _ _ _ _ hp, getD_set_self _ _ _ _ hp1]
    have hLother : ∀ m, m ≠ p.1 → m ≠ p.2 → L.getD m ∅ = acc.1.getD m ∅ := by
      intro m hm1 hm2
      rw [hL, getD_set_ne _ _ _ _ _ hm2, getD_set_ne _ _ _ _ _ hm1]
    have huL : u ∈ L := by
      rcases getD_mem_or_empty L p.1 with h | h
      · rw [hLp1] at h
        exact h
      · rw [hLp1] at h
        exfalso
        have hwin : w ∈ u := Finset.mem_union_left _ hw.1
        rw [h] at hwin
        exact Finset.not_mem_empty w hwin
    have hmem : ∀ s ∈ L, s = u ∨ s = (∅ : Finset Nat) ∨ s ∈ acc.1 := by
      intro s hs
      rw [hL] at hs
      rcases List.mem_or_eq_of_mem_set hs with hs' | hs'
      · rcases List.mem_or_eq_of_mem_set hs' with hs'' | hs''
        · exact Or.inr (Or.inr hs'')
        · exact Or.inl hs''
      · exact Or.inr (Or.inl hs')
    have hkeep : ∀ s : Finset Nat, s.Nonempty → (∃ m, m < acc.1.length ∧
        acc.1.getD m ∅ = s ∧ m ≠ p.1 ∧ m ≠ p.2) → s ∈ L := by
      intro s hsne hm
      obtain ⟨m, hmlt, hms, hm1, hm2⟩ := hm
      have hgm : L.getD m ∅ = s := by
        rw [hLother m hm1 hm2, hms]
      rcases getD_mem_or_empty L m with h | h
      · rw [hgm] at h
        exact h
      · rw [hgm] at h
        obtain ⟨z, hz⟩ := hsne
        rw [h] at hz
        exact absurd hz (Finset.not_mem_empty z)
    refine ⟨?_, ?_, ?_, ?_⟩
    · intro s hs x hx
      rcases hmem s hs with rfl | rfl | hs'
      · rcases Finset.mem_union.mp hx with hx' | hx'
        · exact h1 _ hts1 x hx'
        · exact h1 _ hts2 x hx'
      · exact absurd hx (Finset.not_mem_empty x)
      · exact h1 s hs' x hx
    · intro x hnw
      obtain ⟨s, hs, hxs⟩ := h2 x hnw
      obtain ⟨m, hm, hms⟩ := List.mem_iff_getElem.mp hs
      have hgets : acc.1.getD m ∅ = s := by
        rw [getD_eq_of_getElem acc.1 m hm]
        exact hms
      by_cases hm1 : m = p.1
      · refine ⟨u, huL, Finset.mem_union_left _ ?_⟩
        rw [← hm1, hgets]
        exact hxs
      · by_cases hm2 : m = p.2
        · refine ⟨u, huL, Finset.mem_union_right _ ?_⟩
          rw [← hm2, hgets]
          exact hxs
        · refine ⟨s, ?_, hxs⟩
          apply hkeep s ⟨x, hxs⟩
          exact ⟨m, hm, hgets, hm1, hm2⟩
    · intro s hs x hx y hy
      rcases hmem s hs with rfl | rfl | hs'
      · rcases Finset.mem_union.mp hx with hx' | hx' <;>
          rcases Finset.mem_union.mp hy with hy' | hy'
        · exact h3 _ hts1 x hx' y hy'
        · exact Relation.ReflTransGen.trans (h3 _ hts1 x hx' w hw.1)
            (h3 _ hts2 w hw.2 y hy')
        · exact Relation.ReflTransGen.trans (h3 _ hts2 x hx' w hw.2)
            (h3 _ hts1 w hw.1 y hy')
        · exact h3 _ hts2 x hx' y hy'
      · exact absurd hx (Finset.not_mem_empty x)
      · exact h3 s hs' x hx y hy
    · intro i j hadj
      obtain ⟨s, hs, his, hjs⟩ := h4 i j hadj
      obtain ⟨m, hm, hms⟩ := List.mem_iff_getElem.mp hs
      have hgets : acc.1.getD m ∅ = s := by
        rw [getD_eq_of_getElem acc.1 m hm]
        exact hms
      by_cases hm1 : m = p.1
      · refine ⟨u, huL, Finset.mem_union_left _ ?_, Finset.mem_union_left _ ?_⟩ <;>
          (rw [← hm1, hgets]; assumption)
      · by_cases hm2 : m = p.2
        · refine ⟨u, huL, Finset.mem_union_right _ ?_, Finset.mem_union_right _ ?_⟩ <;>
            (rw [← hm2, hgets]; assumption)
        · refine ⟨s, ?_, his, hjs⟩
          apply hkeep s ⟨i, his⟩
          exact ⟨m, hm, hgets, hm1, hm2⟩
  · exact ⟨h1, h2, h3, h4⟩

end DungeonCreator

namespace DungeonCreator

theorem pairList_lt (n : Nat) : ∀ p ∈ pairList n, p.1 < p.2 := by
  intro p hp
  unfold pairList at hp
  obtain ⟨i, hi, hpi⟩ := List.mem_flatMap.mp hp
  obtain ⟨j, hj, hpj⟩ := List.mem_map.mp hpi
  obtain ⟨hjr, hij⟩ := List.mem_filter.mp hj
  rw [← hpj]
  exact of_decide_eq_true hij

theorem mem_pairList (n i j : Nat) (hij : i < j) (hj : j < n) : (i, j) ∈ pairList n := by
  unfold pairList
  refine List.mem_flatMap.mpr ⟨i, List.mem_range.mpr (by omega), ?_⟩
  refine List.mem_map.mpr ⟨j, List.mem_filter.mpr ⟨List.mem_range.mpr hj, ?_⟩, rfl⟩
  exact decide_eq_true hij

theorem foldl_mergePair_inv (room : DungeonRoom) (ps : List (Nat × Nat)) :
    ∀ acc : List (Finset Nat) × Bool, (∀ p ∈ ps, p.1 < p.2) → MergeInv room acc.1 →
      MergeInv room (ps.foldl mergePair acc).1 := by
  induction ps with
  | nil =>
    intro acc _ h
    exact h
  | cons p ps ih =>
    intro acc hps h
    rw [List.foldl_cons]
    exact ih (mergePair acc p) (fun q hq => hps q (List.mem_cons_of_mem p hq))
      (mergePair_inv room acc p (Nat.ne_of_lt (hps p (List.mem_cons_self p ps))) h)

theorem mergeIteration_inv (room : DungeonRoom) (sets : List (Finset Nat))
    (h : MergeInv room sets) : MergeInv room (mergeIteration sets).1 :=
  foldl_mergePair_inv room (pairList sets.length) (sets, false)
    (pairList_lt sets.length) h

theorem filter_mergeInv (room : DungeonRoom) (sets : List (Finset Nat))
    (h : MergeInv room sets) :
    MergeInv room (sets.filter (fun t => 0 < t.card)) := by
  obtain ⟨h1, h2, h3, h4⟩ := h
  refine ⟨?_, ?_, ?_, ?_⟩
  · intro s hs x hx
    exact h1 s (List.mem_of_mem_filter hs) x hx
  · intro x hnw
    obtain ⟨s, hs, hxs⟩ := h2 x hnw
    refine ⟨s, List.mem_filter.mpr ⟨hs, ?_⟩, hxs⟩
    exact decide_eq_true (Finset.card_pos.mpr ⟨x, hxs⟩)
  · intro s hs x hx y hy
    exact h3 s (List.mem_of_mem_filter hs) x hx y hy
  · intro i j hadj
    obtain ⟨s, hs, his, hjs⟩ := h4 i j hadj
    refine ⟨s, List.mem_filter.mpr ⟨hs, ?_⟩, his, hjs⟩
    exact decide_eq_true (Finset.card_pos.mpr ⟨i, his⟩)

/-- The number of nonempty sets in the working list: the termination measure
of the `while merge_again` loop. -/
def countNE (l : List (Finset Nat)) : Nat :=
  (l.filter (fun s => 0 < s.card)).length

theorem countNE_le_length (l : List (Finset Nat)) : countNE l ≤ l.length :=
  List.length_filter_le _ _

theorem countNE_set (l : List (Finset Nat)) (i : Nat) (a : Finset Nat) :
    i < l.length →
    countNE (l.set i a) + (if 0 < (l.getD i ∅).card then 1 else 0)
      = countNE l + (if 0 < a.card then 1 else 0) := by
  induction l generalizing i with
  | nil =>
    intro h
    exact absurd h (by simp)
  | cons x t ih =>
    intro h
    cases i with
    | zero =>
      simp only [List.set_cons_zero, countNE, List.filter_cons, List.getD_cons_zero,
        decide_eq_true_eq]
      by_cases ha : 0 < a.card <;> by_cases hx : 0 < x.card <;>
        simp only [ha, hx, if_true, if_false, List.length_cons] <;> omega
    | succ i =>
      have hi : i < t.length := by
        simpa using h
      have hrec := ih i hi
      unfold countNE at hrec ⊢
      simp only [List.set_cons_succ, List.filter_cons, List.getD_cons_succ,
        decide_eq_true_eq]
      by_cases hx : 0 < x.card <;>
        simp only [hx, if_true, if_false, List.length_cons] <;>
        by_cases ha : 0 < a.card <;> by_cases hg : 0 < (t.getD i ∅).card <;>
          simp only [ha, hg, if_true, if_false] at hrec ⊢ <;> omega

end DungeonCreator

namespace DungeonCreator

theorem mergePair_count (acc : List (Finset Nat) × Bool) (p : Nat × Nat)
    (hp : p.1 ≠ p.2) :
    countNE (mergePair acc p).1 ≤ countNE acc.1 ∧
    ((mergePair acc p).2 = true → acc.2 = true ∨
      countNE (mergePair acc p).1 < countNE acc.1) := by
  unfold mergePair
  dsimp only
  split
  · rename_i hne
    obtain ⟨w, hw⟩ := hne
    rw [Finset.mem_inter] at hw
    have hp1 : p.1 < acc.1.length := by
      by_contra hcon
      have hw1 := hw.1
      rw [List.getD_eq_getElem?_getD, List.getElem?_eq_none (by omega)] at hw1
      exact absurd hw1 (Finset.not_mem_empty w)
    have hp2 : p.2 < acc.1.length := by
      by_contra hcon
      have hw2 := hw.2
      rw [List.getD_eq_getElem?_getD, List.getElem?_eq_none (by omega)] at hw2
      exact absurd hw2 (Finset.not_mem_empty w)
    have hc1 := countNE_set acc.1 p.1 (acc.1.getD p.1 ∅ ∪ acc.1.getD p.2 ∅) hp1
    have hc2 := countNE_set (acc.1.set p.1 (acc.1.getD p.1 ∅ ∪ acc.1.getD p.2 ∅)) p.2
      (∅ : Finset Nat) (by rw [List.length_set]; exact hp2)
    have hmid : (acc.1.set p.1 (acc.1.getD p.1 ∅ ∪ acc.1.getD p.2 ∅)).getD p.2 ∅
        = acc.1.getD p.2 ∅ := getD_set_ne _ _ _ _ _ (fun hcon => hp hcon.symm)
    rw [hmid] at hc2
    have hpos1 : 0 < (acc.1.getD p.1 ∅).card := Finset.card_pos.mpr ⟨w, hw.1⟩
    have hpos2 : 0 < (acc.1.getD p.2 ∅).card := Finset.card_pos.mpr ⟨w, hw.2⟩
    have hposu : 0 < (acc.1.getD p.1 ∅ ∪ acc.1.getD p.2 ∅).card :=
      Finset.card_pos.mpr ⟨w, Finset.mem_union_left _ hw.1⟩
    rw [if_pos hpos1, if_pos hposu] at hc1
    rw [if_pos hpos2, if_neg (by simp)] at hc2
    dsimp only
    constructor
    · omega
    · intro _
      right
      omega
  · exact ⟨Nat.le_refl _, fun h => Or.inl h⟩

theorem foldl_mergePair_count (ps : List (Nat × Nat)) :
    ∀ acc : List (Finset Nat) × Bool, (∀ p ∈ ps, p.1 < p.2) →
      countNE (ps.foldl mergePair acc).1 ≤ countNE acc.1 ∧
      ((ps.foldl mergePair acc).2 = true → acc.2 = true ∨
        countNE (ps.foldl mergePair acc).1 < countNE acc.1) := by
  induction ps with
  | nil =>
    intro acc _
    exact ⟨Nat.le_refl _, fun h => Or.inl h⟩
  | cons p ps ih =>
    intro acc hps
    rw [List.foldl_cons]
    have hstep := mergePair_count acc p (Nat.ne_of_lt (hps p (List.mem_cons_self p ps)))
    have hrest := ih (mergePair acc p) (fun q hq => hps q (List.mem_cons_of_mem p hq))
    constructor
    · exact hrest.1.trans hstep.1
    · intro hfl
      rcases hrest.2 hfl with hcase | hcase
      · rcases hstep.2 hcase with hcase' | hcase'
        · exact Or.inl hcase'
        · exact Or.inr (by omega)
      · have := hstep.1
        exact Or.inr (by omega)

theorem mergeIteration_count (sets : List (Finset Nat))
    (h : (mergeIteration sets).2 = true) :
    countNE (mergeIteration sets).1 < countNE sets := by
  have := foldl_mergePair_count (pairList sets.length) (sets, false)
    (pairList_lt sets.length)
  rcases this.2 h with hcase | hcase
  · exact absurd hcase (by simp)
  · exact hcase

theorem mergePair_flag_mono (acc : List (Finset Nat) × Bool) (p : Nat × Nat)
    (h : acc.2 = true) : (mergePair acc p).2 = true := by
  unfold mergePair
  dsimp only
  split
  · rfl
  · exact h

theorem foldl_flag_mono (ps : List (Nat × Nat)) :
    ∀ acc : List (Finset Nat) × Bool, acc.2 = true →
      (ps.foldl mergePair acc).2 = true := by
  induction ps with
  | nil =>
    intro acc h
    exact h
  | cons p ps ih =>
    intro acc h
    rw [List.foldl_cons]
    exact ih (mergePair acc p) (mergePair_flag_mono acc p h)

theorem foldl_no_merge (ps : List (Nat × Nat)) :
    ∀ l : List (Finset Nat), (ps.foldl mergePair (l, false)).2 = false →
      (ps.foldl mergePair (l, false)).1 = l ∧
      ∀ p ∈ ps, ¬ ((l.getD p.1 ∅) ∩ (l.getD p.2 ∅)).Nonempty := by
  induction ps with
  | nil =>
    intro l _
    exact ⟨rfl, fun p hp => absurd hp (List.not_mem_nil p)⟩
  | cons p ps ih =>
    intro l hfl
    rw [List.foldl_cons] at hfl ⊢
    by_cases hcond : ((l.getD p.1 ∅) ∩ (l.getD p.2 ∅)).Nonempty
    · exfalso
      have hstep : (mergePair (l, false) p).2 = true := by
        unfold mergePair
        dsimp only
        rw [if_pos hcond]
      rw [foldl_flag_mono ps (mergePair (l, false) p) hstep] at hfl
      exact Bool.noConfusion hfl
    · have hstep : mergePair (l, false) p = (l, false) := by
        unfold mergePair
        dsimp only
        rw [if_neg hcond]
      rw [hstep] at hfl ⊢
      obtain ⟨ha, hb⟩ := ih l hfl
      refine ⟨ha, ?_⟩
      intro q hq
      rcases List.mem_cons.mp hq with hq' | hq'
      · rw [hq']
        exact hcond
      · exact hb q hq'

theorem mergeIteration_false (sets : List (Finset Nat))
    (h : (mergeIteration sets).2 = false) :
    (mergeIteration sets).1 = sets ∧
    ∀ i j, i < j → j < sets.length → sets.getD i ∅ ∩ sets.getD j ∅ = ∅ := by
  obtain ⟨ha, hb⟩ := foldl_no_merge (pairList sets.length) sets h
  refine ⟨ha, ?_⟩
  intro i j hij hj
  have := hb (i, j) (mem_pairList sets.length i j hij hj)
  exact Finset.not_nonempty_iff_eq_empty.mp this

end DungeonCreator

namespace DungeonCreator

/-- The postcondition of the merge phase: the invariant still holds, every
set is nonempty, and the sets are pairwise disjoint (indexwise). -/
def GoodSets (room : DungeonRoom) (l : List (Finset Nat)) : Prop :=
  MergeInv room l ∧ (∀ s ∈ l, 0 < s.card) ∧
  (∀ i j, i < j → j < l.length → l.getD i ∅ ∩ l.getD j ∅ = ∅)

theorem mergeLoop_good (room : DungeonRoom) :
    ∀ fuel sets, MergeInv room sets → countNE sets < fuel →
      GoodSets room (mergeLoop fuel sets) := by
  intro fuel
  induction fuel with
  | zero =>
    intro sets _ hcount
    exact absurd hcount (by omega)
  | succ n ih =>
    intro sets hinv hcount
    have hF : eliminateEmpty (sets.filter (fun t => 0 < t.card))
        = sets.filter (fun t => 0 < t.card) := by
      unfold eliminateEmpty
      exact List.filter_eq_self.mpr (fun a ha => (List.mem_filter.mp ha).2)
    have hFinv : MergeInv room (sets.filter (fun t => 0 < t.card)) :=
      filter_mergeInv room sets hinv
    have hFcount : countNE (sets.filter (fun t => 0 < t.card)) = countNE sets := by
      unfold countNE
      rw [List.filter_eq_self.mpr (fun a ha => (List.mem_filter.mp ha).2)]
    unfold mergeLoop
    rw [hF]
    rcases hMI : mergeIteration (sets.filter (fun t => 0 < t.card)) with ⟨r, m⟩
    dsimp only
    rw [hMI]
    dsimp only
    cases m with
    | true =>
      show GoodSets room (mergeLoop n r)
      have hrinv : MergeInv room r := by
        have := mergeIteration_inv room _ hFinv
        rw [hMI] at this
        exact this
      have hrcount : countNE r < n := by
        have := mergeIteration_count (sets.filter (fun t => 0 < t.card)) (by rw [hMI])
        rw [hMI] at this
        dsimp only at this
        omega
      exact ih r hrinv hrcount
    | false =>
      show GoodSets room r
      have hfl : (mergeIteration (sets.filter (fun t => 0 < t.card))).2 = false := by
        rw [hMI]
      obtain ⟨hreq, hdisj⟩ := mergeIteration_false _ hfl
      rw [hMI] at hreq
      dsimp only at hreq
      subst hreq
      refine ⟨hFinv, ?_, hdisj⟩
      intro s hs
      exact of_decide_eq_true ((List.mem_filter.mp hs).2)

theorem merge_good (room : DungeonRoom) (sets : List (Finset Nat))
    (h : MergeInv room sets) : GoodSets room (merge sets) := by
  unfold merge
  exact mergeLoop_good room (sets.length + 1) sets h
    (by have := countNE_le_length sets; omega)

theorem connectedTileSets_good (room : DungeonRoom) (hc : 0 < room.columns)
    (hlen : room.tiles.length = room.rows * room.columns) :
    GoodSets room (connectedTileSets room) := by
  unfold connectedTileSets
  exact merge_good room _ (mergeInv_of_phase1 room _
    (phase1_fold room hc hlen room.tiles.length (Nat.le_refl _)))

end DungeonCreator

namespace DungeonCreator

theorem getD_eq_getElem_fin (l : List (Finset Nat)) (m : Nat) (hm : m < l.length) :
    l.getD m ∅ = l[m] := by
  rw [List.getD_eq_getElem?_getD, List.getElem?_eq_getElem hm]
  rfl

/-- C5: `connected_tile_sets` partitions the non-Wall tile indices into
maximal 4-connected components: the returned sets are nonempty and pairwise
disjoint, their union is exactly the set of non-Wall tile indices, and two
non-Wall tiles share a returned set iff they are joined by a path of
non-Wall tiles whose consecutive tiles are 4-adjacent. -/
theorem c5_partition (room : DungeonRoom) (hc : 0 < room.columns)
    (hlen : room.tiles.length = room.rows * room.columns) :
    (∀ s ∈ connectedTileSets room, s.Nonempty) ∧
    (∀ i j, i < j → j < (connectedTileSets room).length →
      (connectedTileSets room).getD i ∅ ∩ (connectedTileSets room).getD j ∅ = ∅) ∧
    (∀ x, (∃ s ∈ connectedTileSets room, x ∈ s) ↔ nonWallTile room x) ∧
    (∀ x y, nonWallTile room x → nonWallTile room y →
      ((∃ s ∈ connectedTileSets room, x ∈ s ∧ y ∈ s) ↔ tileReach room x y)) := by
  obtain ⟨⟨h1, h2, h3, h4⟩, hpos, hdisj⟩ := connectedTileSets_good room hc hlen
  have hsame : ∀ s t, s ∈ connectedTileSets room → t ∈ connectedTileSets room →
      ∀ z, z ∈ s → z ∈ t → s = t := by
    intro s t hs ht z hzs hzt
    obtain ⟨is', hisl, hiss⟩ := List.mem_iff_getElem.mp hs
    obtain ⟨it', hitl, hitt⟩ := List.mem_iff_getElem.mp ht
    rcases Nat.lt_trichotomy is' it' with hlt | heq | hlt
    · exfalso
      have hd := hdisj is' it' hlt hitl
      rw [getD_eq_getElem_fin _ is' (by omega), getD_eq_getElem_fin _ it' hitl] at hd
      have hz : z ∈ (connectedTileSets room)[is'] ∩ (connectedTileSets room)[it'] :=
        Finset.mem_inter.mpr ⟨by rw [hiss]; exact hzs, by rw [hitt]; exact hzt⟩
      rw [hd] at hz
      exact Finset.not_mem_empty z hz
    · subst heq
      rw [← hiss, ← hitt]
    · exfalso
      have hd := hdisj it' is' hlt hisl
      rw [getD_eq_getElem_fin _ it' (by omega), getD_eq_getElem_fin _ is' hisl] at hd
      have hz : z ∈ (connectedTileSets room)[it'] ∩ (connectedTileSets room)[is'] :=
        Finset.mem_inter.mpr ⟨by rw [hitt]; exact hzt, by rw [hiss]; exact hzs⟩
      rw [hd] at hz
      exact Finset.not_mem_empty z hz
  refine ⟨?_, hdisj, ?_, ?_⟩
  · intro s hs
    exact Finset.card_pos.mp (hpos s hs)
  · intro x
    constructor
    · rintro ⟨s, hs, hxs⟩
      exact h1 s hs x hxs
    · exact h2 x
  · intro x y hnx hny
    constructor
    · rintro ⟨s, hs, hxs, hys⟩
      exact h3 s hs x hxs y hys
    · intro hreach
      clear hny
      induction hreach with
      | refl =>
        obtain ⟨s, hs, hxs⟩ := h2 x hnx
        exact ⟨s, hs, hxs, hxs⟩
      | tail hxb hadj ihh =>
        rename_i b c
        obtain ⟨s, hs, hxs, hbs⟩ := ihh
        obtain ⟨t, ht, hbt, hct⟩ := h4 b c hadj
        have hst : s = t := hsame s t hs ht b hbs hbt
        rw [hst] at hxs
        exact ⟨t, ht, hxs, hct⟩

/-- Witness: the 4×4 two-blob room satisfies the hypotheses, its tile 0 is
covered by a component, and the analyzer returns exactly 2 components whose
sizes 1 and 12 sum to the total Floor-tile count. -/
theorem c5_partition_witness :
    (0 < c5BlobRoom.columns ∧
      c5BlobRoom.tiles.length = c5BlobRoom.rows * c5BlobRoom.columns) ∧
    (∃ s ∈ connectedTileSets c5BlobRoom, 0 ∈ s) ∧
    (connectedTileSets c5BlobRoom).length = 2 ∧
    ((connectedTileSets c5BlobRoom).getD 0 ∅).card = 1 ∧
    ((connectedTileSets c5BlobRoom).getD 1 ∅).card = 12 ∧
    ((List.range c5BlobRoom.tiles.length).filter
      (fun i => decide (c5BlobRoom.tiles.getD i .wall = .floor))).length = 13 :=
  ⟨⟨by decide, by decide⟩,
   ((c5_partition c5BlobRoom (by decide) (by decide)).2.2.1 0).mpr ⟨by decide, by decide⟩,
   by decide, by decide, by decide, by decide⟩

end DungeonCreator
